import Mathlib

/-!
hartodb: the record codec, the table files and the ID generator

A shallow embedding of `src/main.go`, followed by the properties proved of it.

* Go `string` payloads and file contents are lists of bytes; names and paths
  are Lean strings built by the same concatenations as in the source.
* `int64` values are integers in `[-2^63, 2^63)`; `|` and `<<` act on their
  64-bit patterns (naturals below `2^64`), and `toInt64` reads a pattern back
  as a signed value. Go's `int` is the 64-bit `int`.
* A `float64` is carried as its IEEE-754 bit pattern (`math.Float64bits`).
* A field width (`uint`) is a natural number n, and `int(field.Length)` is
  taken to be n, as it is in the source for n below 2^63. For a larger n the
  conversion is negative in the source, where `make` and the slice
  expressions then panic and the record size wraps; that range is outside the
  model. An allocation `make([]byte, n)` is taken to succeed. The statements on the codec carry the bound n < 2^31,
  under which the conversion is n, the shift counts `8 * i` do not overflow
  and n is within the limit of the allocator.
* The file system is a map from path to node. Opening, creating, reading or
  writing a path fails when the path is a directory (and reading when it is
  absent); names are taken not to contain path separators, and a write to an
  open file succeeds.
* `encoding/json` and `time.Format` are library code and enter through `Lib`;
  the wall clock enters as an argument of the function that reads it. The
  `time` component of `response` is a rendering of the wall clock and is left
  out.
* The bodies of the two field loops are functions of their own
  (`addToTable.step`, `parseRecordWithRefs.step`); an early `return` inside a
  loop is a result that stops the recursion.
* A run-time panic is the `none` of an `Option` result (`Run.panic` for
  `readTable`), a loop that never ends is `Run.hang`.
-/

namespace HartoDB

/-! ## Data model -/

abbrev Byte := Fin 256

abbrev Constraint := String

def Uint128Length : Nat := 16

def PrimaryKey : Constraint := "primary_key"

def NotNull : Constraint := "not_null"

def Unique : Constraint := "unique"

structure response where
  num : Nat
  err : String
deriving DecidableEq

/-- One column definition; `Typ` is the source's `Type`. -/
structure field where
  Name : String
  Typ : String
  Length : Nat
  Constraints : List Constraint
deriving DecidableEq

structure table where
  TableName : String
  CreatedAt : String
  Fields : List field
deriving DecidableEq

def timePKField : field :=
  { Name := "id", Typ := "timeID", Length := 8, Constraints := [PrimaryKey, NotNull, Unique] }

def mainPath : String := "./hartoDB"

def fileEnding : String := ".htdb"

/-- A Go `interface{}` value, by dynamic type. -/
inductive Value where
  | int (v : Int)
  | int64 (v : Int)
  | float64 (bits : Nat)
  | string (s : List Byte)
  | nil
  | other
deriving DecidableEq

/-- A Go `map[string]interface{}`. -/
abbrev GoMap := String → Option Value

def GoMap.empty : GoMap := fun _ => none

/-- The assignment `m[k] = v`. -/
def GoMap.set (m : GoMap) (k : String) (v : Value) : GoMap :=
  fun x => if x = k then some v else m x

/-- Library functions the program calls: `json.MarshalIndent` and
`json.Unmarshal` on a `table`, and `time.Unix(0, ns).Format(time.RFC3339Nano)`. -/
structure Lib where
  marshalIndent : table → List Byte
  unmarshal : List Byte → Except String table
  formatRFC3339Nano : Int → List Byte

/-- The UTF-8 bytes of a string. -/
def bytesOf (s : String) : List Byte :=
  s.toList.flatMap fun c => (String.utf8EncodeChar c).map fun u => ⟨u.toNat, u.val.isLt⟩

/-! ## File system -/

inductive Node where
  | dir
  | file (bytes : List Byte)
deriving DecidableEq

abbrev FS := String → Option Node

/-- Whether `os.Stat` finds the path (`!os.IsNotExist(err)`). -/
def FS.stat (fs : FS) (p : String) : Bool := (fs p).isSome

/-- The call `os.Create`: an empty file, an existing file truncated. -/
def FS.create (fs : FS) (p : String) : Option FS :=
  match fs p with
  | some Node.dir => none
  | _ => some (Function.update fs p (some (Node.file [])))

/-- The call `os.OpenFile(p, O_APPEND|O_WRONLY|O_CREATE, 0644)`: the file is
created empty when absent. -/
def FS.openAppend (fs : FS) (p : String) : Option FS :=
  match fs p with
  | some Node.dir => none
  | some (Node.file _) => some fs
  | none => some (Function.update fs p (some (Node.file [])))

/-- Size of a file (`Stat().Size()` of an open file). -/
def FS.size (fs : FS) (p : String) : Nat :=
  match fs p with
  | some (Node.file b) => b.length
  | _ => 0

/-- A `Write` on a file opened for appending. -/
def FS.append (fs : FS) (p : String) (bytes : List Byte) : FS :=
  match fs p with
  | some (Node.file b) => Function.update fs p (some (Node.file (b ++ bytes)))
  | _ => fs

/-- The call `os.ReadFile`. -/
def FS.readFile (fs : FS) (p : String) : Option (List Byte) :=
  match fs p with
  | some (Node.file b) => some b
  | _ => none

/-- The call `os.WriteFile`. -/
def FS.writeFile (fs : FS) (p : String) (bytes : List Byte) : Option FS :=
  match fs p with
  | some Node.dir => none
  | _ => some (Function.update fs p (some (Node.file bytes)))

/-- Text of the error of a failed operation on `p`. -/
def FS.errorText (fs : FS) (p : String) : String :=
  match fs p with
  | some Node.dir => "open " ++ p ++ ": is a directory"
  | _ => "open " ++ p ++ ": no such file or directory"

/-! ## Machine integers -/

/-- Conversion to `int64`: the value with the same low 64 bits. -/
def toInt64 (n : Int) : Int := (n + 2 ^ 63) % 2 ^ 64 - 2 ^ 63

/-- Conversion to `byte`: the low 8 bits. -/
def byte (x : Int) : Byte := ⟨(x % 256).toNat, by omega⟩

/-- Conversion to `uint64`, also the 64-bit pattern of an `int64`. -/
def toUint64 (x : Int) : Nat := (x % 2 ^ 64).toNat

/-! ## Serialization -/

/-- The parameter `length` stands for the `int` the caller passes, which is
`int(field.Length)`: the width itself when the width is below 2^63. -/
def int64ToBytes (value : Int) (length : Nat) : List Byte :=
  (List.range length).map fun (i : Nat) => if i < 8 then byte (value >>> (8 * i)) else 0

def float64ToBytes (bits : Nat) : List Byte :=
  int64ToBytes (toInt64 bits) 8

/-- Zeroed bytes with `copy(bytes, value)` applied; `length` stands for
`int(field.Length)`, the width itself when the width is below 2^63. -/
def stringToBytes (value : List Byte) (length : Nat) : List Byte :=
  value.take length ++ List.replicate (length - value.length) 0

/-- The argument `int(field.Length)` of the two helpers is taken to be the
width, which it is for a width below 2^63. -/
def serializeField (f : field) (value : Value) : Except String (List Byte) :=
  if f.Typ = "timeID" then
    match value with
    | Value.int64 v => Except.ok (int64ToBytes v f.Length)
    | _ => Except.error "value must be an int64 for field type 'timeID'"
  else if f.Typ = "int" then
    match value with
    | Value.int v => Except.ok (int64ToBytes (toInt64 v) f.Length)
    | _ => Except.error "value must be an int for field type 'int'"
  else if f.Typ = "float" then
    match value with
    | Value.float64 v => Except.ok (float64ToBytes v)
    | _ => Except.error "value must be a float64 for field type 'float'"
  else if f.Typ = "string" then
    match value with
    | Value.string v => Except.ok (stringToBytes v f.Length)
    | _ => Except.error "value must be a string for field type 'string'"
  else if f.Typ = "ref" then
    match value with
    | Value.string v => Except.ok (stringToBytes v f.Length)
    | _ => Except.error "value must be a string for field type 'ref'"
  else Except.error ("unsupported field type '" ++ f.Typ ++ "'")

/-! ## Deserialization -/

/-- Loop of `bytesToInt64` on 64-bit patterns: `value |= int64(data[i]) << (8*i)`. -/
def bytesToInt64.go : Nat → Nat → List Byte → Nat
  | _, value, [] => value
  | i, value, b :: rest => go (i + 1) (value ||| (b.val <<< (8 * i)) % 2 ^ 64) rest

def bytesToInt64 (data : List Byte) : Int :=
  toInt64 (bytesToInt64.go 0 0 data)

def bytesToFloat64 (data : List Byte) : Nat :=
  toUint64 (bytesToInt64 data)

/-- The call `strings.TrimRight(s, "\x00")`. -/
def trimRightNul (s : List Byte) : List Byte :=
  s.rdropWhile fun b => b = 0

def deserializeField (f : field) (data : List Byte) : Value :=
  if f.Typ = "int" then Value.int64 (bytesToInt64 data)
  else if f.Typ = "float" then Value.float64 (bytesToFloat64 data)
  else if f.Typ = "string" ∨ f.Typ = "ref" then Value.string (trimRightNul data)
  else Value.nil

/-- Sum of the widths; the source adds `int(field.Length)` in an `int`, the
same number while the sum is below 2^63. -/
def calculateRecordSize (fields : List field) : Nat :=
  fields.foldl (fun size f => size + f.Length) 0

/-! ## Unique ID generator -/

/-- One call of `generateUniqueTimestamp` with no concurrent caller: the clock
reads `now`, the load reads `lastTimestamp`, the compare-and-swap succeeds at
the first attempt. Returns the ID and the new `lastTimestamp`; `current + 1`
is an `int64` addition. -/
def generateUniqueTimestamp (now lastTimestamp : Int) : Int × Int :=
  if now > lastTimestamp then (now, now)
  else (toInt64 (lastTimestamp + 1), toInt64 (lastTimestamp + 1))

/-! ## Table creation -/

/-- The result `nil` is `none`, an error is its message. -/
def validateFieldLengths : List field → Option String
  | [] => none
  | f :: rest =>
    if f.Typ = "ref" ∧ f.Length ≠ Uint128Length then
      some ("field '" ++ f.Name ++ "' of type 'ref' must have a length of "
        ++ toString Uint128Length ++ " bytes")
    else if f.Typ = "timeID" ∧ f.Length ≠ 8 then
      some ("field '" ++ f.Name ++ "' of type 'timeID' must have a length of 8 bytes")
    else validateFieldLengths rest

/-- Path of the side file of a ref field. -/
def refFilePath (pathSchema tableName fieldName : String) : String :=
  pathSchema ++ "/" ++ tableName ++ "." ++ fieldName ++ ".data" ++ fileEnding

/-- Loop of `createTable` over the fields: one side file per ref field. An
early return carries the file system reached so far. -/
def createTable.refFiles (pathSchema name : String) : List field → FS → FS × Option response
  | [], fs => (fs, none)
  | f :: rest, fs =>
    if f.Typ = "ref" then
      match fs.create (refFilePath pathSchema name f.Name) with
      | none =>
        (fs, some ⟨500, "Failed to create ref field file: "
          ++ fs.errorText (refFilePath pathSchema name f.Name)⟩)
      | some fs1 => refFiles pathSchema name rest fs1
    else refFiles pathSchema name rest fs

/-- The function `createTable`; `createdAt` is `time.Now().Format(time.RFC3339)`. -/
def createTable (L : Lib) (fs : FS) (createdAt : String) (name schema : String)
    (fields : List field) : response × FS :=
  let fields := timePKField :: fields
  let pathSchema := mainPath ++ "/" ++ schema
  let pathTable := mainPath ++ "/" ++ schema ++ "/" ++ name ++ fileEnding
  let pathConf := mainPath ++ "/" ++ schema ++ "/" ++ name ++ ".conf" ++ fileEnding
  if schema.length = 0 then (⟨406, "Have to select a schema"⟩, fs)
  else if ¬ fs.stat pathSchema then (⟨406, "Schema " ++ schema ++ " does not exist"⟩, fs)
  else if fs.stat pathTable then (⟨406, "Table " ++ name ++ " already exists"⟩, fs)
  else if name.length = 0 then (⟨406, "You have to give the table a name"⟩, fs)
  else if ".".toList.isPrefixOf name.toList then
    (⟨406, "Can't name a Table like that, sowwy"⟩, fs)
  else if name = "index" then (⟨406, "Can't name a Table \"index\", sowwy"⟩, fs)
  else
    match validateFieldLengths fields with
    | some err => (⟨406, err⟩, fs)
    | none =>
      match fs.create pathTable with
      | none => (⟨500, "Failed to create table file: " ++ fs.errorText pathTable⟩, fs)
      | some fs1 =>
        match createTable.refFiles pathSchema name fields fs1 with
        | (fs2, some resp) => (resp, fs2)
        | (fs2, none) =>
          match fs2.create pathConf with
          | none => (⟨500, fs2.errorText pathConf⟩, fs2)
          | some fs3 =>
            match fs3.writeFile pathConf (L.marshalIndent ⟨name, createdAt, fields⟩) with
            | none =>
              (⟨500, "Failed to write JSON to configuration file: "
                ++ fs3.errorText pathConf⟩, fs3)
            | some fs4 => (⟨200, "Table created successfully"⟩, fs4)

/-! ## Insert -/

def containsConstraint : List Constraint → Constraint → Bool
  | [], _ => false
  | c :: cs, target => if c = target then true else containsConstraint cs target

/-- Body of the field loop of `addToTable` for one field: the file system
reached, and either the response of an early return or the bytes appended to
`binaryData`. -/
def addToTable.step (pathSchema tableName : String) (data : GoMap) (f : field) (fs : FS) :
    FS × Except response (List Byte) :=
  if f.Typ = "ref" then
    match fs.openAppend (refFilePath pathSchema tableName f.Name) with
    | none =>
      (fs, Except.error ⟨500, "Failed to open ref field file: "
        ++ fs.errorText (refFilePath pathSchema tableName f.Name)⟩)
    | some fs1 =>
      match data f.Name with
      | none => (fs1, Except.ok (List.replicate 16 0))
      | some (Value.string refValue) =>
        let start : Int := fs1.size (refFilePath pathSchema tableName f.Name)
        (fs1.append (refFilePath pathSchema tableName f.Name) (refValue ++ [10]),
          Except.ok (int64ToBytes start 8 ++ int64ToBytes (toInt64 (start + refValue.length)) 8))
      | some _ =>
        (fs1, Except.error ⟨406, "Field '" ++ f.Name ++ "' requires a string value"⟩)
  else
    match data f.Name with
    | some value =>
      match serializeField f value with
      | Except.error err =>
        (fs, Except.error ⟨406, "Error serializing field '" ++ f.Name ++ "': " ++ err⟩)
      | Except.ok fieldBytes => (fs, Except.ok fieldBytes)
    | none =>
      if containsConstraint f.Constraints NotNull then
        (fs, Except.error ⟨406, "Field '" ++ f.Name ++ "' is required but not provided"⟩)
      else (fs, Except.ok (List.replicate f.Length 0))

/-- Field loop of `addToTable`: the file system reached, and either the
response of an early return or `binaryData`. -/
def addToTable.loop (pathSchema tableName : String) (data : GoMap) :
    List field → FS → List Byte → FS × Except response (List Byte)
  | [], fs, binaryData => (fs, Except.ok binaryData)
  | f :: rest, fs, binaryData =>
    match addToTable.step pathSchema tableName data f fs with
    | (fs1, Except.error resp) => (fs1, Except.error resp)
    | (fs1, Except.ok fieldBytes) =>
      loop pathSchema tableName data rest fs1 (binaryData ++ fieldBytes)

/-- The function `addToTable`, one caller at a time; `now` is the reading of
the clock in `generateUniqueTimestamp`. Returns the response, the file system
and `lastTimestamp` afterwards. -/
def addToTable (L : Lib) (fs : FS) (lastTimestamp now : Int) (schema tableName : String)
    (data : GoMap) : response × FS × Int :=
  let pathSchema := mainPath ++ "/" ++ schema
  let pathConf := pathSchema ++ "/" ++ tableName ++ ".conf" ++ fileEnding
  let pathData := pathSchema ++ "/" ++ tableName ++ fileEnding
  if ¬ fs.stat pathSchema then (⟨406, "Schema " ++ schema ++ " does not exist"⟩, fs, lastTimestamp)
  else if ¬ fs.stat pathConf then
    (⟨406, "Table " ++ tableName ++ " does not exist"⟩, fs, lastTimestamp)
  else
    match fs.readFile pathConf with
    | none =>
      (⟨500, "Failed to read table configuration: " ++ fs.errorText pathConf⟩, fs, lastTimestamp)
    | some configBytes =>
      match L.unmarshal configBytes with
      | Except.error err =>
        (⟨500, "Failed to parse table configuration: " ++ err⟩, fs, lastTimestamp)
      | Except.ok tableConfig =>
        let idValue := (generateUniqueTimestamp now lastTimestamp).1
        let last := (generateUniqueTimestamp now lastTimestamp).2
        let data := data.set "id" (Value.int64 idValue)
        match addToTable.loop pathSchema tableName data tableConfig.Fields fs [] with
        | (fs1, Except.error resp) => (resp, fs1, last)
        | (fs1, Except.ok binaryData) =>
          match fs1.openAppend pathData with
          | none => (⟨500, "Failed to open table file: " ++ fs1.errorText pathData⟩, fs1, last)
          | some fs2 =>
            (⟨200, "Data added to table successfully with id: " ++ toString idValue⟩,
              fs2.append pathData binaryData, last)

/-! ## Read -/

/-- Outcome of a function that may panic or never return. -/
inductive Run (α : Type) where
  | done (a : α)
  | panic
  | hang

def invalidReferenceRange : List Byte := bytesOf "Invalid reference range"

/-- Body of the field loop of `parseRecordWithRefs` for one field: the record
after the assignments; `none` is a run-time panic (slice bounds out of range).
The bound `offset + int(field.Length)` of the slice is `offset` plus the width,
as it is while that sum is below 2^63. -/
def parseRecordWithRefs.step (L : Lib) (fs : FS) (data : List Byte)
    (schema tableName : String) (f : field) (record : GoMap) (offset : Nat) : Option GoMap :=
  if offset + f.Length > data.length then none
  else
    let fieldData := (data.drop offset).take f.Length
    if f.Typ = "timeID" then
      let idValue := bytesToInt64 fieldData
      some ((record.set f.Name (Value.int64 idValue)).set "id_datetime"
        (Value.string (L.formatRFC3339Nano idValue)))
    else if f.Typ = "ref" then
      if f.Length < 8 then none
      else
        let start := bytesToInt64 (fieldData.take 8)
        let end_ := bytesToInt64 (fieldData.drop 8)
        let path := refFilePath (mainPath ++ "/" ++ schema) tableName f.Name
        match fs.readFile path with
        | none =>
          some (record.set f.Name
            (Value.string (bytesOf ("Error reading ref data: " ++ fs.errorText path))))
        | some refData =>
          if start < refData.length ∧ end_ ≤ refData.length then
            if start < 0 ∨ end_ < start then none
            else
              some (record.set f.Name
                (Value.string ((refData.drop start.toNat).take (end_ - start).toNat)))
          else some (record.set f.Name (Value.string invalidReferenceRange))
    else some (record.set f.Name (deserializeField f fieldData))

/-- Field loop of `parseRecordWithRefs`. -/
def parseRecordWithRefs.loop (L : Lib) (fs : FS) (data : List Byte)
    (schema tableName : String) : List field → GoMap → Nat → Option GoMap
  | [], record, _ => some record
  | f :: rest, record, offset =>
    match parseRecordWithRefs.step L fs data schema tableName f record offset with
    | none => none
    | some record1 => loop L fs data schema tableName rest record1 (offset + f.Length)

def parseRecordWithRefs (L : Lib) (fs : FS) (data : List Byte) (fields : List field)
    (schema tableName : String) : Option GoMap :=
  parseRecordWithRefs.loop L fs data schema tableName fields GoMap.empty 0

/-- Record loop of `readTable`. Each unit of `fuel` pays for one test of the
loop condition; running out of it is `Run.hang`. -/
def readTable.loop (decode : List Byte → Option GoMap) (dataBytes : List Byte)
    (recordSize : Nat) : Nat → Nat → List GoMap → Run (List GoMap)
  | 0, _, _ => Run.hang
  | fuel + 1, i, records =>
    if i < dataBytes.length then
      if i + recordSize > dataBytes.length then Run.done records
      else
        match decode ((dataBytes.drop i).take recordSize) with
        | none => Run.panic
        | some record => loop decode dataBytes recordSize fuel (i + recordSize) (records ++ [record])
    else Run.done records

/-- The function `readTable`. The record loop gets `len(dataBytes) + 1` units
of fuel: enough whenever the record size is positive, while with record size
0 and a non-empty file the loop of the source never ends. -/
def readTable (L : Lib) (fs : FS) (schema tableName : String) :
    Run (response × List GoMap) :=
  let pathSchema := mainPath ++ "/" ++ schema
  let pathConf := pathSchema ++ "/" ++ tableName ++ ".conf" ++ fileEnding
  let pathData := pathSchema ++ "/" ++ tableName ++ fileEnding
  if ¬ fs.stat pathSchema then Run.done (⟨406, "Schema " ++ schema ++ " does not exist"⟩, [])
  else if ¬ fs.stat pathConf then
    Run.done (⟨406, "Table " ++ tableName ++ " does not exist"⟩, [])
  else
    match fs.readFile pathConf with
    | none =>
      Run.done (⟨500, "Failed to read table configuration: " ++ fs.errorText pathConf⟩, [])
    | some configBytes =>
      match L.unmarshal configBytes with
      | Except.error err => Run.done (⟨500, "Failed to parse table configuration: " ++ err⟩, [])
      | Except.ok tableConfig =>
        if ¬ fs.stat pathData then
          Run.done (⟨406, "No data found for table " ++ tableName⟩, [])
        else
          match fs.readFile pathData with
          | none => Run.done (⟨500, "Failed to read table data: " ++ fs.errorText pathData⟩, [])
          | some dataBytes =>
            match readTable.loop
                (fun recordBytes =>
                  parseRecordWithRefs L fs recordBytes tableConfig.Fields schema tableName)
                dataBytes (calculateRecordSize tableConfig.Fields) (dataBytes.length + 1) 0 []
            with
            | Run.done records => Run.done (⟨200, "Table read successfully"⟩, records)
            | Run.panic => Run.panic
            | Run.hang => Run.hang

/-! ## Predicates and functions of the statements -/

/-- Byte `j` of the little-endian layout of a 64-bit pattern. -/
def patternByte (u : Nat) (j : Nat) : Byte :=
  if j < 8 then ⟨u / 2 ^ (8 * j) % 256, Nat.mod_lt _ (by norm_num)⟩ else 0

/-- Successive calls of `generateUniqueTimestamp` by one caller, one per clock
reading: for each call the `lastTimestamp` it started from and the value it
returned. -/
def generateCalls : Int → List Int → List (Int × Int)
  | _, [] => []
  | last, now :: rest =>
    (last, (generateUniqueTimestamp now last).1)
      :: generateCalls (generateUniqueTimestamp now last).2 rest

/-- Whether a run ended in a panic. -/
def Run.panicked {α : Type} : Run α → Bool
  | Run.panic => true
  | _ => false

/-- The value a run returned, if it returned. -/
def Run.result {α : Type} : Run α → Option α
  | Run.done a => some a
  | _ => none

/-- Every file of `a` is in `b` with the same bytes, or with bytes appended. -/
def FS.Extends (a b : FS) : Prop :=
  ∀ p x, a p = some (Node.file x) → ∃ y, b p = some (Node.file (x ++ y))

/-- The widths under which writer and reader agree on a slot: `createTable`
checks the first two, the third is the float width of 8. -/
def WidthOK (f : field) : Prop :=
  (f.Typ = "ref" → f.Length = 16) ∧ (f.Typ = "timeID" → f.Length = 8) ∧
    (f.Typ = "float" → f.Length = 8)

/-- What the read loop body does to the record for a field the insert loop
body wrote with data map `d`: key `f.Name` is assigned a value `v` (and for a
timeID field `id_datetime` after it); `v` is the `int64` supplied, and for a
ref field the value supplied is a text and `v` is that text. -/
def Wrote (d : GoMap) (f : field) (r r1 : GoMap) : Prop :=
  ∃ v, (r1 = r.set f.Name v ∨
      (f.Typ = "timeID" ∧ ∃ w, r1 = (r.set f.Name v).set "id_datetime" w)) ∧
    (∀ x, d f.Name = some (Value.int64 x) → -2 ^ 63 ≤ x → x < 2 ^ 63 → v = Value.int64 x) ∧
    (f.Typ = "ref" → ∀ u, d f.Name = some u → ∃ t, u = Value.string t ∧ v = Value.string t)

/-- The read loop over fields the insert loop wrote: one `Wrote` per field, in
field order. -/
def Decoded (d : GoMap) : List field → GoMap → GoMap → Prop
  | [], r, r1 => r1 = r
  | f :: rest, r, r1 => ∃ r0, Wrote d f r r0 ∧ Decoded d rest r0 r1

/-! ## Sample inputs -/

/-- A library instance that knows one definition document, that of `t`. -/
def oneTableLib (t : table) : Lib :=
  { marshalIndent := fun x => bytesOf x.TableName
    unmarshal := fun b =>
      if b = bytesOf t.TableName then Except.ok t else Except.error "unexpected end of JSON input"
    formatRFC3339Nano := fun ns => bytesOf (toString ns) }

/-- A file system holding the root directory and the schema directory `s`. -/
def fsWithSchema : FS := fun p =>
  if p = "./hartoDB" ∨ p = "./hartoDB/s" then some Node.dir else none

def ageField4 : field := { Name := "age", Typ := "int", Length := 4, Constraints := [] }

def ageField : field := { Name := "age", Typ := "int", Length := 8, Constraints := [] }

def nameField : field :=
  { Name := "name", Typ := "string", Length := 16, Constraints := ["not_null"] }

def badRefField : field := { Name := "place", Typ := "ref", Length := 8, Constraints := [] }

/-- The 16 bytes of "0123456789ABCDEF". -/
def name16 : List Byte := [48, 49, 50, 51, 52, 53, 54, 55, 56, 57, 65, 66, 67, 68, 69, 70]

/-- The bytes of "Hans". -/
def hans : List Byte := [72, 97, 110, 115]

/-- The bytes of "hello". -/
def hello : List Byte := [104, 101, 108, 108, 111]

/-- The bytes of "Peter". -/
def peter : List Byte := [80, 101, 116, 101, 114]

/-! ## Sample tables -/

/-- The table of `main` with fields name and age. -/
def personFields : List field :=
  [ { Name := "name", Typ := "string", Length := 16, Constraints := ["not_null"] },
    { Name := "age", Typ := "int", Length := 8, Constraints := [] } ]

def personLib : Lib := oneTableLib ⟨"persons", "now", timePKField :: personFields⟩

/-- The file system after `createTable("persons", "s", personFields)`. -/
def personFS : FS := (createTable personLib fsWithSchema "now" "persons" "s" personFields).2

/-- The map `data6` of `main` without its extra key. -/
def dataPeter : GoMap :=
  (GoMap.empty.set "name" (Value.string peter)).set "age" (Value.int 30)

/-- The map `data6` of `main`: name, age, and the key `extraField`. -/
def data6 : GoMap := dataPeter.set "extraField" (Value.string (bytesOf "unexpected"))

/-- The data file of `persons` after one insert, followed by five bytes of a
partial write. -/
def partialData : List Byte :=
  [232, 3, 0, 0, 0, 0, 0, 0] ++ stringToBytes peter 16 ++ [30, 0, 0, 0, 0, 0, 0, 0]
    ++ [1, 2, 3, 4, 5]

/-- A file system with the table `persons` and the data file `partialData`. -/
def partialFS : FS := fun p =>
  if p = "./hartoDB" ∨ p = "./hartoDB/s" then some Node.dir
  else if p = "./hartoDB/s/persons.conf.htdb" then some (Node.file (bytesOf "persons"))
  else if p = "./hartoDB/s/persons.htdb" then some (Node.file partialData)
  else none

/-- The field list of `tableData` in `main`: the ref field `place` is declared
not_null. -/
def tableDataFields : List field :=
  [ { Name := "name", Typ := "string", Length := 16, Constraints := ["not_null"] },
    { Name := "age", Typ := "int", Length := 8, Constraints := [] },
    { Name := "place", Typ := "ref", Length := Uint128Length, Constraints := [NotNull] } ]

def tableDataLib : Lib := oneTableLib ⟨"tableData", "now", timePKField :: tableDataFields⟩

/-- The file system after `createTable("tableData", "s", tableDataFields)`. -/
def tableDataFS : FS :=
  (createTable tableDataLib fsWithSchema "now" "tableData" "s" tableDataFields).2

/-- A data map with a name and no place. -/
def dataNoPlace : GoMap := GoMap.empty.set "name" (Value.string hans)

/-- A table with a float field declared with width 4. -/
def priceFields : List field :=
  [ { Name := "price", Typ := "float", Length := 4, Constraints := [] } ]

def priceLib : Lib := oneTableLib ⟨"prices", "now", timePKField :: priceFields⟩

/-- The file system after `createTable("prices", "s", priceFields)`. -/
def priceFS : FS := (createTable priceLib fsWithSchema "now" "prices" "s" priceFields).2

/-- The data map with price 1.5, whose bit pattern is 0x3FF8000000000000. -/
def dataPrice : GoMap := GoMap.empty.set "price" (Value.float64 0x3FF8000000000000)

/-- A table with a ref field followed by an int field. -/
def noteFields : List field :=
  [ { Name := "note", Typ := "ref", Length := Uint128Length, Constraints := [] },
    { Name := "age", Typ := "int", Length := 8, Constraints := [] } ]

def noteLib : Lib := oneTableLib ⟨"notes", "now", timePKField :: noteFields⟩

/-- The file system after `createTable("notes", "s", noteFields)`. -/
def noteFS : FS := (createTable noteLib fsWithSchema "now" "notes" "s" noteFields).2

/-- A data map with a text for `note` and a text where `age` wants an int. -/
def dataBadAge : GoMap :=
  (GoMap.empty.set "note" (Value.string hello)).set "age" (Value.string hello)

/-- A table with one ref field. -/
def refsFields : List field :=
  [ { Name := "note", Typ := "ref", Length := Uint128Length, Constraints := [] } ]

def refsLib : Lib := oneTableLib ⟨"refs", "now", timePKField :: refsFields⟩

/-- A file system with the table `refs` whose data file holds one 24-byte slot
with the offsets start = 1 and end = 0, and whose side file holds two bytes. -/
def corruptFS : FS := fun p =>
  if p = "./hartoDB" ∨ p = "./hartoDB/s" then some Node.dir
  else if p = "./hartoDB/s/refs.conf.htdb" then some (Node.file (bytesOf "refs"))
  else if p = "./hartoDB/s/refs.htdb" then
    some (Node.file ([232, 3, 0, 0, 0, 0, 0, 0] ++ [1, 0, 0, 0, 0, 0, 0, 0]
      ++ [0, 0, 0, 0, 0, 0, 0, 0]))
  else if p = "./hartoDB/s/refs.note.data.htdb" then some (Node.file [104, 10])
  else none

/-- A table in which a ref field and a later string field share the name `r`. -/
def dupFields : List field :=
  [ { Name := "r", Typ := "ref", Length := Uint128Length, Constraints := [] },
    { Name := "r", Typ := "string", Length := 4, Constraints := [] } ]

def dupLib : Lib := oneTableLib ⟨"dup", "now", timePKField :: dupFields⟩

/-- The file system after `createTable("dup", "s", dupFields)`. -/
def dupFS : FS := (createTable dupLib fsWithSchema "now" "dup" "s" dupFields).2

/-- The data map with the text "hello" for `r`. -/
def dataHello : GoMap := GoMap.empty.set "r" (Value.string hello)

/-- The fields of the last table of `main`. -/
def textFields : List field :=
  [ { Name := "name", Typ := "string", Length := 16, Constraints := ["not_null"] },
    { Name := "age", Typ := "int", Length := 8, Constraints := [] },
    { Name := "city", Typ := "string", Length := 16, Constraints := [] },
    { Name := "longText", Typ := "ref", Length := Uint128Length, Constraints := [] } ]

def textLib : Lib := oneTableLib ⟨"texts", "now", timePKField :: textFields⟩

/-- A data map with a name and a two-line text for `longText`. -/
def dataText : GoMap :=
  (GoMap.empty.set "name" (Value.string peter)).set "longText"
    (Value.string (hello ++ [10] ++ hello))

/-- Outcome of a sequence of `addToTable` calls by one caller: the file system
and `lastTimestamp` reached, the ids of the calls answered 200 in call order,
and the `lastTimestamp` each call started from. -/
structure Inserts where
  fs : FS
  lastTimestamp : Int
  ids : List Int
  starts : List Int

/-- A sequence of `addToTable` calls on one table by one caller, each with its
clock reading and its data map. -/
def insertAll (L : Lib) (schema tableName : String) : FS → Int → List (Int × GoMap) → Inserts
  | fs, last, [] => ⟨fs, last, [], []⟩
  | fs, last, (now, data) :: rest =>
    let r := addToTable L fs last now schema tableName data
    let tail := insertAll L schema tableName r.2.1 r.2.2 rest
    ⟨tail.fs, tail.lastTimestamp,
      if r.1.num = 200 then (generateUniqueTimestamp now last).1 :: tail.ids else tail.ids,
      last :: tail.starts⟩

/-- A slot of the data file that decodes, in every later file system, to a
record with the given id. -/
def SlotOK (L : Lib) (schema N : String) (flds : List field) (fs : FS) (enc : List Byte)
    (id : Int) : Prop :=
  enc.length = calculateRecordSize flds ∧
  ∀ fsC, FS.Extends fs fsC →
    (∀ f ∈ flds, f.Typ = "ref" →
      fsC.size (refFilePath (mainPath ++ "/" ++ schema) N f.Name) < 2 ^ 63) →
    ∃ r, parseRecordWithRefs L fsC enc flds schema N = some r ∧ r "id" = some (Value.int64 id)

/-- The table `t` is in place and its data file is the concatenation of one
good slot per id. -/
def TableState (L : Lib) (schema N : String) (t : table) (fs : FS) (ids : List Int) : Prop :=
  fs.stat (mainPath ++ "/" ++ schema) = true ∧
  (∃ cb, fs.readFile (mainPath ++ "/" ++ schema ++ "/" ++ N ++ ".conf" ++ fileEnding) = some cb ∧
    L.unmarshal cb = Except.ok t) ∧
  (∀ f ∈ t.Fields, WidthOK f) ∧ (∃ f ∈ t.Fields, f.Name = "id") ∧
  ∃ encs : List (List Byte),
    fs (mainPath ++ "/" ++ schema ++ "/" ++ N ++ fileEnding) = some (Node.file encs.flatten) ∧
    List.Forall₂ (SlotOK L schema N t.Fields fs) encs ids

/-- Three inserts into `persons`; the second has no name and is refused, the
clock stands still and then steps back. -/
def sampleCalls : List (Int × GoMap) :=
  [(1000, dataPeter), (1000, GoMap.empty), (999, dataPeter)]

/-- A file system with the table `refs` whose data file holds two slots: the
first with the offsets start = -1 and end = 1, the second with the offsets
start = 0 and end = 1; the side file holds the two bytes of "h\n". -/
def negativeStartFS : FS := fun p =>
  if p = "./hartoDB" ∨ p = "./hartoDB/s" then some Node.dir
  else if p = "./hartoDB/s/refs.conf.htdb" then some (Node.file (bytesOf "refs"))
  else if p = "./hartoDB/s/refs.htdb" then
    some (Node.file ([232, 3, 0, 0, 0, 0, 0, 0] ++ [255, 255, 255, 255, 255, 255, 255, 255]
      ++ [1, 0, 0, 0, 0, 0, 0, 0]
      ++ [233, 3, 0, 0, 0, 0, 0, 0] ++ [0, 0, 0, 0, 0, 0, 0, 0] ++ [1, 0, 0, 0, 0, 0, 0, 0]))
  else if p = "./hartoDB/s/refs.note.data.htdb" then some (Node.file [104, 10])
  else none

/-- The same table with the first slot's offsets start = 0 and end = 9, past
the end of the two-byte side file. -/
def endBeyondFS : FS := fun p =>
  if p = "./hartoDB" ∨ p = "./hartoDB/s" then some Node.dir
  else if p = "./hartoDB/s/refs.conf.htdb" then some (Node.file (bytesOf "refs"))
  else if p = "./hartoDB/s/refs.htdb" then
    some (Node.file ([232, 3, 0, 0, 0, 0, 0, 0] ++ [0, 0, 0, 0, 0, 0, 0, 0]
      ++ [9, 0, 0, 0, 0, 0, 0, 0]
      ++ [233, 3, 0, 0, 0, 0, 0, 0] ++ [0, 0, 0, 0, 0, 0, 0, 0] ++ [1, 0, 0, 0, 0, 0, 0, 0]))
  else if p = "./hartoDB/s/refs.note.data.htdb" then some (Node.file [104, 10])
  else none

/-- Where one call of `generateUniqueTimestamp` stands between its atomic
steps. -/
inductive Pc where
  | clock
  | load (newTimestamp : Int)
  | cas (newTimestamp current : Int)
  | returned (value : Int)
deriving DecidableEq

/-- The shared `lastTimestamp`, the concurrent calls, and the history of the
successful compare-and-swap steps in the order they occurred: the call, the
`lastTimestamp` swapped out and the value swapped in, which the call returns. -/
structure Gen where
  lastTimestamp : Int
  calls : List Pc
  log : List (Nat × Int × Int)

/-- One atomic step of call `i`: read the clock (`now`), load `lastTimestamp`,
or compare-and-swap; a failed compare-and-swap sends the call back to the top
of its loop, a call that has returned does not move. -/
def Gen.step (g : Gen) (i : Nat) (now : Int) : Gen :=
  match g.calls[i]? with
  | none => g
  | some Pc.clock => { g with calls := g.calls.set i (Pc.load now) }
  | some (Pc.load newTimestamp) =>
    { g with calls := g.calls.set i (Pc.cas newTimestamp g.lastTimestamp) }
  | some (Pc.cas newTimestamp current) =>
    if newTimestamp > current then
      if g.lastTimestamp = current then
        { lastTimestamp := newTimestamp
          calls := g.calls.set i (Pc.returned newTimestamp)
          log := g.log ++ [(i, current, newTimestamp)] }
      else { g with calls := g.calls.set i Pc.clock }
    else
      if g.lastTimestamp = current then
        { lastTimestamp := toInt64 (current + 1)
          calls := g.calls.set i (Pc.returned (toInt64 (current + 1)))
          log := g.log ++ [(i, current, toInt64 (current + 1))] }
      else { g with calls := g.calls.set i Pc.clock }
  | some (Pc.returned _) => g

/-- An interleaving: at each step the call that moves and the clock reading
it gets if the step reads the clock. -/
def Gen.run (g : Gen) : List (Nat × Int) → Gen
  | [] => g
  | (i, now) :: rest => (g.step i now).run rest

/-- `n` calls about to start. -/
def Gen.init (lastTimestamp : Int) (n : Nat) : Gen :=
  { lastTimestamp := lastTimestamp, calls := List.replicate n Pc.clock, log := [] }

/-- The invariant of the interleavings. -/
def Gen.Inv (g : Gen) : Prop :=
  -2 ^ 63 ≤ g.lastTimestamp ∧
  (∀ e ∈ g.log, e.2.2 ≤ g.lastTimestamp) ∧
  g.log.Pairwise (fun a b => a.2.2 < b.2.2) ∧
  (∀ i v, g.calls[i]? = some (Pc.returned v) ↔ ∃ cur, (i, cur, v) ∈ g.log)

/-- Three calls one after the other, the clock reading 2^63 - 1 each time. -/
def stuckClockSchedule : List (Nat × Int) :=
  [(0, 9223372036854775807), (0, 0), (0, 0),
   (1, 9223372036854775807), (1, 0), (1, 0),
   (2, 9223372036854775807), (2, 0), (2, 0)]

/-- Two calls that both read the clock at 100 and load `lastTimestamp` 0; the
compare-and-swap of call 0 succeeds, that of call 1 fails and call 1 goes
round its loop once more. -/
def racingSchedule : List (Nat × Int) :=
  [(0, 100), (1, 100), (0, 0), (1, 0), (0, 0), (1, 0), (1, 100), (1, 0), (1, 0)]

/-- The file system after `createTable("refs", "s", refsFields)`. -/
def refsFS : FS := (createTable refsLib fsWithSchema "now" "refs" "s" refsFields).2

/-- The file system after a first insert into `refs` that gives no value for
the ref field `note`. -/
def omittedFS : FS := (addToTable refsLib refsFS 0 1000 "s" "refs" GoMap.empty).2.1

/-- The data map with the text "hello" for `note`. -/
def dataNote : GoMap := GoMap.empty.set "note" (Value.string hello)

/-- The file system after a second insert into `refs`, with a text for `note`. -/
def suppliedFS : FS := (addToTable refsLib omittedFS 1000 2000 "s" "refs" dataNote).2.1

/-- A slot of the data file that decodes to the same record in every later
file system. -/
def SlotStable (L : Lib) (schema N : String) (flds : List field) (fs : FS) (enc : List Byte)
    (record : GoMap) : Prop :=
  enc.length = calculateRecordSize flds ∧
  ∀ fsC, FS.Extends fs fsC →
    (∀ f ∈ flds, f.Typ = "ref" →
      fsC.size (refFilePath (mainPath ++ "/" ++ schema) N f.Name) < 2 ^ 63) →
    parseRecordWithRefs L fsC enc flds schema N = some record

/-- The table `t` is in place and its data file is the concatenation of one
stable slot per record. -/
def StableTable (L : Lib) (schema N : String) (t : table) (fs : FS) (records : List GoMap) :
    Prop :=
  fs.stat (mainPath ++ "/" ++ schema) = true ∧
  (∃ cb, fs.readFile (mainPath ++ "/" ++ schema ++ "/" ++ N ++ ".conf" ++ fileEnding) = some cb ∧
    L.unmarshal cb = Except.ok t) ∧
  (∀ f ∈ t.Fields, WidthOK f) ∧
  ∃ encs : List (List Byte),
    fs (mainPath ++ "/" ++ schema ++ "/" ++ N ++ fileEnding) = some (Node.file encs.flatten) ∧
    List.Forall₂ (SlotStable L schema N t.Fields fs) encs records

/-! # Theorems -/

/-! ## Integer codec -/

theorem byte_shiftRight (v : Int) (i : Nat) (hi : i < 8) :
    byte (v >>> (8 * i)) = patternByte (toUint64 v) i := by
  unfold byte patternByte toUint64
  rw [if_pos hi]
  apply Fin.ext
  simp only [Int.shiftRight_eq_div_pow]
  interval_cases i <;> norm_num <;> omega

theorem int64ToBytes_eq (v : Int) (n : Nat) :
    int64ToBytes v n = (List.range' 0 n).map (patternByte (toUint64 v)) := by
  unfold int64ToBytes
  rw [List.range_eq_range']
  apply List.map_congr_left
  intro i _
  by_cases hi : i < 8
  · rw [if_pos hi, byte_shiftRight v i hi]
  · simp [patternByte, hi]

theorem go_patternByte (u : Nat) (k : Nat) : ∀ (i value : Nat),
    value = u % 2 ^ (8 * min i 8) →
    bytesToInt64.go i value ((List.range' i k).map (patternByte u)) = u % 2 ^ (8 * min (i + k) 8) := by
  induction k with
  | zero => intro i value h; simpa [bytesToInt64.go] using h
  | succ k ih =>
    intro i value h
    rw [List.range'_succ, List.map_cons, bytesToInt64.go]
    rw [ih (i + 1)]
    · congr 3; omega
    · by_cases hi : i < 8
      · have h1 : min i 8 = i := by omega
        have h2 : min (i + 1) 8 = i + 1 := by omega
        rw [h1] at h
        rw [h2, h]
        have hb : (patternByte u i).val = u / 2 ^ (8 * i) % 256 := by simp [patternByte, hi]
        rw [hb, Nat.shiftLeft_eq]
        have hlt : u / 2 ^ (8 * i) % 256 * 2 ^ (8 * i) < 2 ^ 64 := by
          have : u / 2 ^ (8 * i) % 256 < 256 := Nat.mod_lt _ (by norm_num)
          calc u / 2 ^ (8 * i) % 256 * 2 ^ (8 * i) < 256 * 2 ^ (8 * i) :=
                Nat.mul_lt_mul_of_pos_right this (by positivity)
            _ = 2 ^ (8 * i + 8) := by rw [pow_add]; ring
            _ ≤ 2 ^ 64 := Nat.pow_le_pow_right (by norm_num) (by omega)
        rw [Nat.mod_eq_of_lt hlt, Nat.or_comm, Nat.mul_comm,
          ← Nat.mul_add_lt_is_or (Nat.mod_lt _ (by positivity))]
        have : 2 ^ (8 * (i + 1)) = 2 ^ (8 * i) * 256 := by rw [Nat.mul_add, pow_add]; norm_num
        rw [this, Nat.mod_mul]; ring
      · have h1 : min i 8 = 8 := by omega
        have h2 : min (i + 1) 8 = 8 := by omega
        rw [h1] at h
        rw [h2, h]
        simp [patternByte, hi]

theorem bytesToInt64_int64ToBytes (v : Int) (n : Nat) :
    bytesToInt64 (int64ToBytes v n) = toInt64 ((toUint64 v % 2 ^ (8 * min n 8) : Nat) : Int) := by
  unfold bytesToInt64
  rw [int64ToBytes_eq, go_patternByte (toUint64 v) n 0 0 (by simp [Nat.mod_one])]
  simp

theorem toInt64_of_range (v : Int) (h : -2 ^ 63 ≤ v ∧ v < 2 ^ 63) : toInt64 v = v := by
  unfold toInt64; omega

theorem bytesToInt64_int64ToBytes_wide (v : Int) (n : Nat) (hn : 8 ≤ n) :
    bytesToInt64 (int64ToBytes v n) = toInt64 v := by
  rw [bytesToInt64_int64ToBytes]
  have h2 : min n 8 = 8 := by omega
  rw [h2]
  unfold toInt64 toUint64
  norm_num
  omega

theorem bytesToInt64_int64ToBytes_narrow (v : Int) (n : Nat) (hn : n < 8) :
    bytesToInt64 (int64ToBytes v n) = v % 2 ^ (8 * n) := by
  rw [bytesToInt64_int64ToBytes]
  have h2 : min n 8 = n := by omega
  rw [h2]
  unfold toInt64 toUint64
  interval_cases n <;> norm_num <;> omega

/-! ## Claims on the codec -/

theorem deserializeField_int (f : field) (hT : f.Typ = "int") (b : List Byte) :
    deserializeField f b = Value.int64 (bytesToInt64 b) := by
  simp [deserializeField, hT]

theorem serializeField_int (f : field) (hT : f.Typ = "int") (v : Int) :
    serializeField f (Value.int v) = Except.ok (int64ToBytes (toInt64 v) f.Length) := by
  simp [serializeField, hT]

/-- C1, counterexample: in an int field of width 4 the value -1 is written as
ff ff ff ff and read back as 4294967295. -/
theorem C1_counterexample :
    serializeField ageField4 (Value.int (-1)) = Except.ok [255, 255, 255, 255] ∧
    deserializeField ageField4 [255, 255, 255, 255] = Value.int64 4294967295 ∧
    deserializeField ageField4 [255, 255, 255, 255] ≠ Value.int64 (-1) :=
  ⟨rfl, by decide, by decide⟩

/-- C1, amended: for an int field of width n below 2^31 (so that
int(field.Length) is n) and an int value v (a 64-bit signed integer),
serializeField succeeds with n bytes, and deserializeField of these bytes
returns v when n is at least 8 and v mod 2^(8n) when n is below 8; so the
value read equals v exactly when n ≥ 8 or 0 ≤ v < 2^(8n). -/
theorem C1_int_round_trip (f : field) (v : Int) (hT : f.Typ = "int")
    (hn : f.Length < 2 ^ 31) (hv : -2 ^ 63 ≤ v ∧ v < 2 ^ 63) :
    toInt64 f.Length = f.Length ∧
    ∃ b, serializeField f (Value.int v) = Except.ok b ∧ b.length = f.Length ∧
      deserializeField f b
        = Value.int64 (if 8 ≤ f.Length then v else v % 2 ^ (8 * f.Length)) ∧
      (deserializeField f b = Value.int64 v ↔
        (8 ≤ f.Length ∨ (0 ≤ v ∧ v < 2 ^ (8 * f.Length)))) := by
  refine ⟨toInt64_of_range _ (by omega), _, serializeField_int f hT v,
    by simp [int64ToBytes], ?_⟩
  rw [deserializeField_int f hT, toInt64_of_range v hv]
  by_cases hn : 8 ≤ f.Length
  · rw [bytesToInt64_int64ToBytes_wide v _ hn, toInt64_of_range v hv]
    simp [hn]
  · rw [bytesToInt64_int64ToBytes_narrow v _ (by omega)]
    have hpos : (0 : Int) < 2 ^ (8 * f.Length) := by positivity
    refine ⟨by simp [hn], ?_⟩
    simp only [Value.int64.injEq, hn, false_or]
    constructor
    · intro h
      rw [← h]
      exact ⟨Int.emod_nonneg _ (ne_of_gt hpos), Int.emod_lt_of_pos _ hpos⟩
    · intro h
      exact Int.emod_eq_of_lt h.1 h.2

theorem C1_int_round_trip_witness :
    toInt64 ageField.Length = ageField.Length ∧
    ∃ b, serializeField ageField (Value.int 9223372036854775807) = Except.ok b ∧
      b.length = ageField.Length ∧
      deserializeField ageField b
        = Value.int64 (if 8 ≤ ageField.Length then 9223372036854775807
            else 9223372036854775807 % 2 ^ (8 * ageField.Length)) ∧
      (deserializeField ageField b = Value.int64 9223372036854775807 ↔
        (8 ≤ ageField.Length ∨
          ((0 : Int) ≤ 9223372036854775807 ∧
            (9223372036854775807 : Int) < 2 ^ (8 * ageField.Length)))) :=
  C1_int_round_trip ageField 9223372036854775807 (by decide) (by decide) (by decide)

theorem trimRightNul_append_zeros (l : List Byte) (k : Nat) :
    trimRightNul (l ++ List.replicate k 0) = trimRightNul l := by
  induction k with
  | zero => simp
  | succ k ih =>
    rw [List.replicate_succ', ← List.append_assoc]
    unfold trimRightNul at ih ⊢
    rw [List.rdropWhile_concat_pos _ _ _ (by simp), ih]

theorem deserializeField_stringToBytes (f : field) (hT : f.Typ = "string") (s : List Byte) :
    deserializeField f (stringToBytes s f.Length)
      = Value.string (trimRightNul (s.take f.Length)) := by
  unfold stringToBytes
  simp [deserializeField, hT, trimRightNul_append_zeros]

theorem trimRightNul_eq_self (l : List Byte) (h : ∀ hl : l ≠ [], l.getLast hl ≠ 0) :
    trimRightNul l = l := by
  unfold trimRightNul
  rw [List.rdropWhile_eq_self_iff]
  intro hl
  simpa using h hl

/-- C2, counterexample: the two-byte text 61 00 fits a string field of
width 16 and is read back as the one-byte text 61. -/
theorem C2_counterexample :
    ([97, 0] : List Byte).length ≤ nameField.Length ∧
    deserializeField nameField (stringToBytes [97, 0] nameField.Length) = Value.string [97] ∧
    deserializeField nameField (stringToBytes [97, 0] nameField.Length)
      ≠ Value.string [97, 0] := by
  decide

/-- C2, amended: for a string field of width n below 2^31 (so that
int(field.Length) is n) and a text s, stringToBytes(s, n) is n bytes and
deserializeField applied to it returns the first min(len s, n) bytes of s with
the NUL bytes at their end removed: s itself when len(s) ≤ n and s does not
end in a NUL byte, and exactly the first n bytes of s when these do not end
in a NUL byte. -/
theorem C2_text_round_trip (f : field) (s : List Byte) (hT : f.Typ = "string")
    (hn : f.Length < 2 ^ 31) :
    toInt64 f.Length = f.Length ∧
    (stringToBytes s f.Length).length = f.Length ∧
    deserializeField f (stringToBytes s f.Length)
      = Value.string (trimRightNul (s.take f.Length)) ∧
    ((∀ hl : s.take f.Length ≠ [], (s.take f.Length).getLast hl ≠ 0) →
      deserializeField f (stringToBytes s f.Length) = Value.string (s.take f.Length)) ∧
    (s.length ≤ f.Length → (∀ hl : s ≠ [], s.getLast hl ≠ 0) →
      deserializeField f (stringToBytes s f.Length) = Value.string s) := by
  refine ⟨toInt64_of_range _ (by omega), ?_, deserializeField_stringToBytes f hT s, ?_, ?_⟩
  · simp only [stringToBytes, List.length_append, List.length_take, List.length_replicate]
    omega
  · intro h
    rw [deserializeField_stringToBytes f hT s, trimRightNul_eq_self _ h]
  · intro hlen h
    rw [deserializeField_stringToBytes f hT s, List.take_of_length_le hlen,
      trimRightNul_eq_self _ h]

theorem C2_text_round_trip_witness :
    toInt64 nameField.Length = nameField.Length ∧
    (stringToBytes name16 nameField.Length).length = nameField.Length ∧
    deserializeField nameField (stringToBytes name16 nameField.Length)
      = Value.string (trimRightNul (name16.take nameField.Length)) ∧
    ((∀ hl : name16.take nameField.Length ≠ [],
        (name16.take nameField.Length).getLast hl ≠ 0) →
      deserializeField nameField (stringToBytes name16 nameField.Length)
        = Value.string (name16.take nameField.Length)) ∧
    (name16.length ≤ nameField.Length → (∀ hl : name16 ≠ [], name16.getLast hl ≠ 0) →
      deserializeField nameField (stringToBytes name16 nameField.Length)
        = Value.string name16) :=
  C2_text_round_trip nameField name16 (by decide) (by decide)

/-! ## Claims on the ID generator -/

theorem generateUniqueTimestamp_snd (now last : Int) :
    (generateUniqueTimestamp now last).2 = (generateUniqueTimestamp now last).1 := by
  unfold generateUniqueTimestamp
  split <;> rfl

theorem generateUniqueTimestamp_gt (now last : Int) (hlo : -2 ^ 63 ≤ last)
    (hhi : last < 2 ^ 63 - 1) : last < (generateUniqueTimestamp now last).1 := by
  unfold generateUniqueTimestamp toInt64
  split
  · simpa using ‹now > last›
  · simp only
    omega

theorem generateCalls_spec (nows : List Int) : ∀ (last : Int), -2 ^ 63 ≤ last →
    (∀ c ∈ generateCalls last nows, c.1 < 2 ^ 63 - 1) →
    (∀ c ∈ generateCalls last nows, last ≤ c.1 ∧ c.1 < c.2) ∧
    ((generateCalls last nows).map Prod.snd).Pairwise (· < ·) := by
  induction nows with
  | nil => intro last _ _; simp [generateCalls]
  | cons now rest ih =>
    intro last hlo hall
    simp only [generateCalls, List.mem_cons, forall_eq_or_imp] at hall ⊢
    have hgt := generateUniqueTimestamp_gt now last hlo hall.1
    rw [generateUniqueTimestamp_snd] at hall ⊢
    have hrec := ih (generateUniqueTimestamp now last).1 (by omega) hall.2
    refine ⟨⟨⟨le_refl _, hgt⟩, ?_⟩, ?_⟩
    · intro c hc
      have := hrec.1 c hc
      exact ⟨by omega, this.2⟩
    · rw [List.map_cons, List.pairwise_cons]
      refine ⟨?_, hrec.2⟩
      intro a ha
      rw [List.mem_map] at ha
      obtain ⟨c, hc, rfl⟩ := ha
      have := hrec.1 c hc
      simp only
      omega

/-- C4, counterexample: with `lastTimestamp` 0, a clock reading of 2^63 - 1
and then one of 0, the first call returns 2^63 - 1 and the second -2^63. -/
theorem C4_counterexample :
    generateCalls 0 [9223372036854775807, 0]
      = [(0, 9223372036854775807), (9223372036854775807, -9223372036854775808)] ∧
    ¬ ((9223372036854775807 : Int) < -9223372036854775808) := by
  decide

/-- C4, amended: a call of generateUniqueTimestamp stores the value it returns
as the new lastTimestamp, and in every sequence of calls by one caller, with
arbitrary clock readings, in which each call starts from a lastTimestamp below
2^63 - 1, each call returns a value strictly greater than the lastTimestamp it
started from and the returned values are strictly increasing. -/
theorem C4_sequential_monotonicity (last : Int) (nows : List Int) (hlo : -2 ^ 63 ≤ last)
    (hmax : ∀ c ∈ generateCalls last nows, c.1 < 2 ^ 63 - 1) :
    (∀ now l, (generateUniqueTimestamp now l).2 = (generateUniqueTimestamp now l).1) ∧
    (∀ c ∈ generateCalls last nows, c.1 < c.2) ∧
    ((generateCalls last nows).map Prod.snd).Pairwise (· < ·) :=
  ⟨generateUniqueTimestamp_snd, fun c hc => ((generateCalls_spec nows last hlo hmax).1 c hc).2,
    (generateCalls_spec nows last hlo hmax).2⟩

theorem C4_sequential_monotonicity_witness :
    (∀ now l, (generateUniqueTimestamp now l).2 = (generateUniqueTimestamp now l).1) ∧
    (∀ c ∈ generateCalls 0 [1000, 1000, 999, 2000], c.1 < c.2) ∧
    ((generateCalls 0 [1000, 1000, 999, 2000]).map Prod.snd).Pairwise (· < ·) :=
  C4_sequential_monotonicity 0 [1000, 1000, 999, 2000] (by decide) (by decide)

/-! ## Claims on table creation -/

theorem validateFieldLengths_ref (fields : List field)
    (h : ∃ f ∈ fields, f.Typ = "ref" ∧ f.Length ≠ 16) :
    ∃ err, validateFieldLengths fields = some err := by
  induction fields with
  | nil => simp at h
  | cons g rest ih =>
    unfold validateFieldLengths
    by_cases h1 : g.Typ = "ref" ∧ g.Length ≠ Uint128Length
    · rw [if_pos h1]; exact ⟨_, rfl⟩
    · rw [if_neg h1]
      by_cases h2 : g.Typ = "timeID" ∧ g.Length ≠ 8
      · rw [if_pos h2]; exact ⟨_, rfl⟩
      · rw [if_neg h2]
        apply ih
        obtain ⟨f, hf, hT, hL⟩ := h
        rcases List.mem_cons.1 hf with rfl | hf
        · exact absurd ⟨hT, hL⟩ h1
        · exact ⟨f, hf, hT, hL⟩

/-- C9: for every file system, schema, table name and field list that holds a
field of type ref whose width is not 16, createTable returns a response other
than 200 and the file system it leaves is the one it started from. -/
theorem C9_width_validation_before_files (L : Lib) (fs : FS) (createdAt name schema : String)
    (fields : List field) (h : ∃ f ∈ fields, f.Typ = "ref" ∧ f.Length ≠ 16) :
    (createTable L fs createdAt name schema fields).1.num ≠ 200 ∧
    (createTable L fs createdAt name schema fields).2 = fs := by
  obtain ⟨err, herr⟩ := validateFieldLengths_ref (timePKField :: fields)
    (by obtain ⟨f, hf, hh⟩ := h; exact ⟨f, List.mem_cons_of_mem _ hf, hh⟩)
  unfold createTable
  simp only [herr]
  split_ifs <;> simp

theorem C9_width_validation_before_files_witness :
    (createTable (oneTableLib ⟨"t", "now", []⟩) fsWithSchema "now" "t" "s"
      [nameField, badRefField]).1.num ≠ 200 ∧
    (createTable (oneTableLib ⟨"t", "now", []⟩) fsWithSchema "now" "t" "s"
      [nameField, badRefField]).2 = fsWithSchema :=
  C9_width_validation_before_files _ fsWithSchema "now" "t" "s" [nameField, badRefField]
    ⟨badRefField, by decide, by decide, by decide⟩

theorem tableData_created :
    (createTable tableDataLib fsWithSchema "now" "tableData" "s" tableDataFields).1.num = 200 := by
  decide

/-- C5, the code at the failing input: `tableData` has the not_null ref field
`place`; a data map without `place` is accepted with 200 and a 48-byte record
is appended to the empty primary data file, the place slot zeroed. -/
theorem C5_missing_not_null_ref_accepted :
    containsConstraint (tableDataFields.map fun f => f.Constraints).getLast! NotNull = true ∧
    dataNoPlace "place" = none ∧
    (addToTable tableDataLib tableDataFS 0 1000 "s" "tableData" dataNoPlace).1.num = 200 ∧
    tableDataFS.readFile "./hartoDB/s/tableData.htdb" = some [] ∧
    (addToTable tableDataLib tableDataFS 0 1000 "s" "tableData" dataNoPlace).2.1.readFile
        "./hartoDB/s/tableData.htdb"
      = some ([232, 3, 0, 0, 0, 0, 0, 0] ++ stringToBytes hans 16 ++ List.replicate 8 0
          ++ List.replicate 16 0) := by
  decide

/-- C7, the code at the failing input: createTable accepts a float field of
width 4, the record size is 12, and addToTable answers 200 and appends 16
bytes to the empty primary data file. -/
theorem C7_float_slot_ignores_width :
    (createTable priceLib fsWithSchema "now" "prices" "s" priceFields).1.num = 200 ∧
    calculateRecordSize (timePKField :: priceFields) = 12 ∧
    (addToTable priceLib priceFS 0 1000 "s" "prices" dataPrice).1.num = 200 ∧
    priceFS.readFile "./hartoDB/s/prices.htdb" = some [] ∧
    (addToTable priceLib priceFS 0 1000 "s" "prices" dataPrice).2.1.readFile
        "./hartoDB/s/prices.htdb"
      = some [232, 3, 0, 0, 0, 0, 0, 0, 0, 0, 0, 0, 0, 0, 248, 63] ∧
    serializeField { Name := "price", Typ := "float", Length := 4, Constraints := [] }
        (Value.float64 0x3FF8000000000000)
      = Except.ok [0, 0, 0, 0, 0, 0, 248, 63] :=
  ⟨by decide, by decide, by decide, by decide, by decide, rfl⟩

/-- C8, the code at the failing input: the text of `note` is appended to the
side file, then the value of `age` is rejected with 406; the side file has
grown from empty to the six bytes of "hello\n" and the primary data file is
still empty. -/
theorem C8_side_file_written_before_406 :
    (addToTable noteLib noteFS 0 1000 "s" "notes" dataBadAge).1.num = 406 ∧
    noteFS.readFile "./hartoDB/s/notes.note.data.htdb" = some [] ∧
    (addToTable noteLib noteFS 0 1000 "s" "notes" dataBadAge).2.1.readFile
        "./hartoDB/s/notes.note.data.htdb"
      = some [104, 101, 108, 108, 111, 10] ∧
    (addToTable noteLib noteFS 0 1000 "s" "notes" dataBadAge).2.1.readFile
        "./hartoDB/s/notes.htdb" = some [] := by
  decide

set_option maxRecDepth 4000 in
/-- C6, counterexample: `data6` of `main` carries the key `extraField`, which
names no field of the table; addToTable answers 200 and appends a 32-byte
record to the empty primary data file. -/
theorem C6_counterexample :
    (∀ f ∈ timePKField :: personFields, f.Name ≠ "extraField") ∧
    data6 "extraField" ≠ none ∧
    (addToTable personLib personFS 0 1000 "s" "persons" data6).1.num = 200 ∧
    personFS.readFile "./hartoDB/s/persons.htdb" = some [] ∧
    (addToTable personLib personFS 0 1000 "s" "persons" data6).2.1.readFile
        "./hartoDB/s/persons.htdb"
      = some ([232, 3, 0, 0, 0, 0, 0, 0] ++ stringToBytes peter 16
          ++ [30, 0, 0, 0, 0, 0, 0, 0]) :=
  ⟨by decide, by simp [data6, GoMap.set], by decide, by decide, by decide⟩

/-! ## Insert: values are looked up by field name only -/

theorem addToTable_step_congr (P N : String) (d1 d2 : GoMap) (f : field) (fs : FS)
    (h : d1 f.Name = d2 f.Name) :
    addToTable.step P N d1 f fs = addToTable.step P N d2 f fs := by
  unfold addToTable.step
  rw [h]

theorem addToTable_loop_congr (P N : String) (d1 d2 : GoMap) (l : List field) :
    ∀ (fs : FS) (bin : List Byte), (∀ f ∈ l, d1 f.Name = d2 f.Name) →
    addToTable.loop P N d1 l fs bin = addToTable.loop P N d2 l fs bin := by
  induction l with
  | nil => intro fs bin _; rfl
  | cons f rest ih =>
    intro fs bin h
    unfold addToTable.loop
    rw [addToTable_step_congr P N d1 d2 f fs (h f (List.mem_cons_self _ _))]
    rcases addToTable.step P N d2 f fs with ⟨fs1, r⟩
    cases r with
    | error e => rfl
    | ok b => exact ih fs1 _ (fun g hg => h g (List.mem_cons_of_mem _ hg))

/-- C6, amended: a key of the data map that is not the name of any field of
the table is ignored: addToTable gives the same response, the same files and
the same lastTimestamp as for the data map without that key. -/
theorem C6_unknown_key_ignored (L : Lib) (fs : FS) (last now : Int) (schema tableName : String)
    (data : GoMap) (k : String) (v : Value)
    (hk : ∀ cb t, fs.readFile (mainPath ++ "/" ++ schema ++ "/" ++ tableName ++ ".conf"
        ++ fileEnding) = some cb → L.unmarshal cb = Except.ok t → ∀ f ∈ t.Fields, f.Name ≠ k) :
    addToTable L fs last now schema tableName (data.set k v)
      = addToTable L fs last now schema tableName data := by
  unfold addToTable
  simp only []
  split_ifs with h1 h2
  all_goals try rfl
  cases hrf : fs.readFile (mainPath ++ "/" ++ schema ++ "/" ++ tableName ++ ".conf"
      ++ fileEnding) with
  | none => rfl
  | some cb =>
    simp only []
    cases hu : L.unmarshal cb with
    | error e => rfl
    | ok t =>
      simp only []
      rw [addToTable_loop_congr _ _ ((data.set k v).set "id" _) (data.set "id"
        (Value.int64 (generateUniqueTimestamp now last).1)) t.Fields fs []]
      intro f hf
      have hne := hk cb t hrf hu f hf
      simp [GoMap.set, hne]

theorem C6_unknown_key_ignored_witness :
    addToTable personLib personFS 0 1000 "s" "persons"
        (dataPeter.set "extraField" (Value.string (bytesOf "unexpected")))
      = addToTable personLib personFS 0 1000 "s" "persons" dataPeter :=
  C6_unknown_key_ignored personLib personFS 0 1000 "s" "persons" dataPeter "extraField" _
    (by
      intro cb t _ hu
      have ht : t = ⟨"persons", "now", timePKField :: personFields⟩ := by
        simp only [personLib, oneTableLib] at hu
        split at hu
        · exact (Except.ok.inj hu).symm
        · exact absurd hu (by simp)
      subst ht
      decide)

/-! ## Claims on the full-table decode -/

theorem readTable_loop_spec (decode : List Byte → Option GoMap) (dataBytes : List Byte)
    (S : Nat) (hS : 0 < S) : ∀ (fuel i : Nat) (records : List GoMap),
    (dataBytes.length - i) / S < fuel →
    (∀ k < (dataBytes.length - i) / S,
      (decode ((dataBytes.drop (i + k * S)).take S)).isSome) →
    ∃ recs : List GoMap, recs.length = (dataBytes.length - i) / S ∧
      (∀ k (hk : k < recs.length),
        decode ((dataBytes.drop (i + k * S)).take S) = some (recs.get ⟨k, hk⟩)) ∧
      readTable.loop decode dataBytes S fuel i records = Run.done (records ++ recs) := by
  intro fuel
  induction fuel with
  | zero => intro i records h; exact absurd h (Nat.not_lt_zero _)
  | succ fuel ih =>
    intro i records hfuel hdec
    unfold readTable.loop
    by_cases hi : i < dataBytes.length
    · rw [if_pos hi]
      by_cases hpart : i + S > dataBytes.length
      · rw [if_pos hpart]
        have h0 : (dataBytes.length - i) / S = 0 := Nat.div_eq_of_lt (by omega)
        exact ⟨[], by simp [h0], by simp, by simp⟩
      · rw [if_neg hpart]
        have hn : (dataBytes.length - i) / S = (dataBytes.length - (i + S)) / S + 1 := by
          rw [Nat.div_eq_sub_div hS (by omega)]
          congr 2
          omega
        have h0 := hdec 0 (by rw [hn]; exact Nat.succ_pos _)
        simp only [Nat.zero_mul, Nat.add_zero] at h0
        obtain ⟨r, hr⟩ := Option.isSome_iff_exists.1 h0
        rw [hr]
        obtain ⟨recs, hlen, hget, hloop⟩ := ih (i + S) (records ++ [r])
          (by rw [hn] at hfuel; exact Nat.lt_of_succ_lt_succ hfuel) (by
          intro k hk
          have := hdec (k + 1) (by rw [hn]; exact Nat.succ_lt_succ hk)
          rwa [show i + (k + 1) * S = i + S + k * S by ring] at this)
        refine ⟨r :: recs, by simp [hlen, hn], ?_, by simp [hloop]⟩
        intro k hk
        cases k with
        | zero => simpa using hr
        | succ k =>
          have := hget k (by simpa using hk)
          rw [show i + (k + 1) * S = i + S + k * S by ring]
          simpa using this
    · rw [if_neg hi]
      have h0 : (dataBytes.length - i) / S = 0 := by
        rw [show dataBytes.length - i = 0 by omega]; simp
      exact ⟨[], by simp [h0], by simp, by simp⟩

theorem readTable_slots (L : Lib) (fs : FS) (schema tableName : String)
    (cb dataBytes : List Byte) (t : table)
    (hschema : fs.stat (mainPath ++ "/" ++ schema) = true)
    (hconf : fs.readFile (mainPath ++ "/" ++ schema ++ "/" ++ tableName ++ ".conf"
      ++ fileEnding) = some cb)
    (hun : L.unmarshal cb = Except.ok t)
    (hdata : fs.readFile (mainPath ++ "/" ++ schema ++ "/" ++ tableName ++ fileEnding)
      = some dataBytes)
    (hS : 0 < calculateRecordSize t.Fields)
    (hdec : ∀ k < dataBytes.length / calculateRecordSize t.Fields,
      (parseRecordWithRefs L fs
        ((dataBytes.drop (k * calculateRecordSize t.Fields)).take
          (calculateRecordSize t.Fields)) t.Fields schema tableName).isSome) :
    ∃ records : List GoMap,
      readTable L fs schema tableName
        = Run.done (⟨200, "Table read successfully"⟩, records) ∧
      records.length = dataBytes.length / calculateRecordSize t.Fields ∧
      ∀ k (hk : k < records.length),
        parseRecordWithRefs L fs
          ((dataBytes.drop (k * calculateRecordSize t.Fields)).take
            (calculateRecordSize t.Fields)) t.Fields schema tableName
          = some (records.get ⟨k, hk⟩) := by
  obtain ⟨recs, hlen, hget, hloop⟩ := readTable_loop_spec
    (fun recordBytes => parseRecordWithRefs L fs recordBytes t.Fields schema tableName)
    dataBytes (calculateRecordSize t.Fields) hS (dataBytes.length + 1) 0 []
    (Nat.lt_succ_of_le (Nat.div_le_self _ _))
    (by simpa using hdec)
  simp only [Nat.sub_zero, Nat.zero_add, List.nil_append] at hlen hget hloop
  refine ⟨recs, ?_, hlen, hget⟩
  have hsc : fs.stat (mainPath ++ "/" ++ schema ++ "/" ++ tableName ++ ".conf"
      ++ fileEnding) = true := by
    unfold FS.readFile at hconf
    unfold FS.stat
    split at hconf <;> simp_all
  have hsd : fs.stat (mainPath ++ "/" ++ schema ++ "/" ++ tableName ++ fileEnding) = true := by
    unfold FS.readFile at hdata
    unfold FS.stat
    split at hdata <;> simp_all
  unfold readTable
  simp only [hschema, hsc, hsd, hconf, hun, hdata, hloop, not_true_eq_false, if_false]

/-- C10, the code at the failing input: the table `refs` has record size 24
and its data file holds exactly one complete slot, so the claim gives one
record; the ref offsets of the slot are start = 1 and end = 0 while the side
file has two bytes, the pair passes the range check, and readTable ends in a
run-time panic and returns nothing. On the table `persons` (record size 32)
with a data file of one slot and five trailing bytes, readTable returns 200
with exactly one record, the decoding of the first 32 bytes. -/
theorem C10_complete_slot_panics :
    calculateRecordSize (timePKField :: refsFields) = 24 ∧
    (corruptFS.readFile "./hartoDB/s/refs.htdb").map List.length = some 24 ∧
    (readTable refsLib corruptFS "s" "refs").panicked = true ∧
    (readTable refsLib corruptFS "s" "refs").result.isNone = true ∧
    calculateRecordSize (timePKField :: personFields) = 32 ∧
    partialData.length = 37 ∧
    ((readTable personLib partialFS "s" "persons").result.map fun x =>
        (x.1, x.2.map fun r => (r "id", r "name", r "age")))
      = some (⟨200, "Table read successfully"⟩,
          [(some (Value.int64 1000), some (Value.string peter), some (Value.int64 30))]) := by
  decide

/-! ## Paths -/

theorem refFilePath_length (P N F : String) :
    (refFilePath P N F).length = P.length + N.length + F.length + 12 := by
  simp only [refFilePath, fileEnding, String.length_append]
  have h1 : "/".length = 1 := by decide
  have h2 : ".".length = 1 := by decide
  have h3 : ".data".length = 5 := by decide
  have h4 : ".htdb".length = 5 := by decide
  omega

theorem dataPath_length (P N : String) :
    (P ++ "/" ++ N ++ fileEnding).length = P.length + N.length + 6 := by
  simp only [fileEnding, String.length_append]
  have h1 : "/".length = 1 := by decide
  have h4 : ".htdb".length = 5 := by decide
  omega

theorem confPath_length (P N : String) :
    (P ++ "/" ++ N ++ ".conf" ++ fileEnding).length = P.length + N.length + 11 := by
  simp only [fileEnding, String.length_append]
  have h1 : "/".length = 1 := by decide
  have h3 : ".conf".length = 5 := by decide
  have h4 : ".htdb".length = 5 := by decide
  omega

theorem refFilePath_ne_data (P N F : String) :
    refFilePath P N F ≠ P ++ "/" ++ N ++ fileEnding := by
  intro h
  have := congrArg String.length h
  rw [refFilePath_length, dataPath_length] at this
  omega

theorem refFilePath_ne_conf (P N F : String) :
    refFilePath P N F ≠ P ++ "/" ++ N ++ ".conf" ++ fileEnding := by
  intro h
  have := congrArg String.length h
  rw [refFilePath_length, confPath_length] at this
  omega

theorem refFilePath_ne_schema (P N F : String) : refFilePath P N F ≠ P := by
  intro h
  have := congrArg String.length h
  rw [refFilePath_length] at this
  omega

theorem confPath_ne_data (P N : String) :
    P ++ "/" ++ N ++ ".conf" ++ fileEnding ≠ P ++ "/" ++ N ++ fileEnding := by
  intro h
  have := congrArg String.length h
  rw [confPath_length, dataPath_length] at this
  omega

theorem dataPath_ne_schema (P N : String) : P ++ "/" ++ N ++ fileEnding ≠ P := by
  intro h
  have := congrArg String.length h
  rw [dataPath_length] at this
  omega

theorem confPath_ne_schema (P N : String) : P ++ "/" ++ N ++ ".conf" ++ fileEnding ≠ P := by
  intro h
  have := congrArg String.length h
  rw [confPath_length] at this
  omega

/-! ## Record size -/

theorem foldl_size (l : List field) : ∀ a : Nat,
    l.foldl (fun size f => size + f.Length) a
      = a + l.foldl (fun size f => size + f.Length) 0 := by
  induction l with
  | nil => intro a; rfl
  | cons f rest ih =>
    intro a
    simp only [List.foldl_cons, Nat.zero_add]
    rw [ih (a + f.Length), ih f.Length]
    omega

theorem calculateRecordSize_cons (f : field) (l : List field) :
    calculateRecordSize (f :: l) = f.Length + calculateRecordSize l := by
  unfold calculateRecordSize
  rw [List.foldl_cons, foldl_size]
  omega

theorem calculateRecordSize_nil : calculateRecordSize [] = 0 := rfl

/-! ## File system lemmas -/

theorem FS.Extends.refl (a : FS) : FS.Extends a a :=
  fun _ x h => ⟨[], by simpa using h⟩

theorem FS.Extends.trans {a b c : FS} (hab : FS.Extends a b) (hbc : FS.Extends b c) :
    FS.Extends a c := by
  intro p x h
  obtain ⟨y, hy⟩ := hab p x h
  obtain ⟨z, hz⟩ := hbc p _ hy
  exact ⟨y ++ z, by simpa [List.append_assoc] using hz⟩

theorem FS.openAppend_spec {fs fs1 : FS} {p : String} (h : fs.openAppend p = some fs1) :
    (∃ old, fs1 p = some (Node.file old)) ∧ (∀ q, q ≠ p → fs1 q = fs q) ∧
      FS.Extends fs fs1 := by
  unfold FS.openAppend at h
  split at h
  · exact absurd h (by simp)
  · rename_i old hp
    cases Option.some.inj h
    exact ⟨⟨old, hp⟩, fun _ _ => rfl, FS.Extends.refl _⟩
  · rename_i hp
    cases Option.some.inj h
    refine ⟨⟨[], by simp⟩, fun q hq => by simp [Function.update, hq], ?_⟩
    intro q x hx
    have hq : q ≠ p := by
      intro hqp
      rw [hqp, hp] at hx
      exact absurd hx (by simp)
    exact ⟨[], by simpa [Function.update, hq] using hx⟩

theorem FS.append_frame (fs : FS) (p : String) (b : List Byte) (q : String) (hq : q ≠ p) :
    (fs.append p b) q = fs q := by
  unfold FS.append
  cases h : fs p with
  | none => rfl
  | some n => cases n <;> simp [Function.update, hq]

theorem FS.append_same (fs : FS) (p : String) (b old : List Byte)
    (h : fs p = some (Node.file old)) : (fs.append p b) p = some (Node.file (old ++ b)) := by
  unfold FS.append
  rw [h]
  simp

theorem FS.append_extends (fs : FS) (p : String) (b : List Byte) :
    FS.Extends fs (fs.append p b) := by
  intro q x hx
  by_cases hq : q = p
  · subst hq
    exact ⟨b, FS.append_same fs q b x hx⟩
  · exact ⟨[], by rw [FS.append_frame fs p b q hq]; simpa using hx⟩

theorem FS.size_eq {fs : FS} {p : String} {old : List Byte} (h : fs p = some (Node.file old)) :
    fs.size p = old.length := by
  unfold FS.size
  rw [h]

theorem FS.readFile_eq {fs : FS} {p : String} {old : List Byte}
    (h : fs p = some (Node.file old)) : fs.readFile p = some old := by
  unfold FS.readFile
  rw [h]

/-! ## Insert: effect of the field loop on the files -/

theorem addToTable_step_files (P N : String) (d : GoMap) (f : field) (fs : FS) :
    (∀ q, q ≠ refFilePath P N f.Name → (addToTable.step P N d f fs).1 q = fs q) ∧
    FS.Extends fs (addToTable.step P N d f fs).1 := by
  unfold addToTable.step
  by_cases hT : f.Typ = "ref"
  · rw [if_pos hT]
    cases ho : fs.openAppend (refFilePath P N f.Name) with
    | none => exact ⟨fun _ _ => rfl, FS.Extends.refl _⟩
    | some fs1 =>
      obtain ⟨-, hframe, hext⟩ := FS.openAppend_spec ho
      simp only []
      split
      · exact ⟨hframe, hext⟩
      · refine ⟨fun q hq => ?_, hext.trans (FS.append_extends _ _ _)⟩
        simp only [FS.append_frame _ _ _ q hq, hframe q hq]
      · exact ⟨hframe, hext⟩
  · rw [if_neg hT]
    split
    · split <;> exact ⟨fun _ _ => rfl, FS.Extends.refl _⟩
    · by_cases hc : containsConstraint f.Constraints NotNull = true
      · rw [if_pos hc]; exact ⟨fun _ _ => rfl, FS.Extends.refl _⟩
      · rw [if_neg hc]; exact ⟨fun _ _ => rfl, FS.Extends.refl _⟩

theorem addToTable_loop_files (P N : String) (d : GoMap) (l : List field) :
    ∀ (fs : FS) (bin : List Byte),
    (∀ q, (∀ f ∈ l, q ≠ refFilePath P N f.Name) → (addToTable.loop P N d l fs bin).1 q = fs q) ∧
    FS.Extends fs (addToTable.loop P N d l fs bin).1 := by
  induction l with
  | nil => intro fs bin; exact ⟨fun _ _ => rfl, FS.Extends.refl _⟩
  | cons f rest ih =>
    intro fs bin
    unfold addToTable.loop
    have hs := addToTable_step_files P N d f fs
    rcases hstep : addToTable.step P N d f fs with ⟨fs1, r⟩
    rw [hstep] at hs
    cases r with
    | error e =>
      exact ⟨fun q hq => hs.1 q (hq f (List.mem_cons_self _ _)), hs.2⟩
    | ok b =>
      simp only []
      have hi := ih fs1 (bin ++ b)
      refine ⟨fun q hq => ?_, hs.2.trans hi.2⟩
      rw [hi.1 q (fun g hg => hq g (List.mem_cons_of_mem _ hg))]
      exact hs.1 q (hq f (List.mem_cons_self _ _))

/-! ## Read: the loop body by field type -/

theorem parse_step_timeID (L : Lib) (fs : FS) (dat : List Byte) (schema N : String) (f : field)
    (r : GoMap) (off : Nat) (hT : f.Typ = "timeID") (hlen : off + f.Length ≤ dat.length) :
    parseRecordWithRefs.step L fs dat schema N f r off
      = some ((r.set f.Name (Value.int64 (bytesToInt64 ((dat.drop off).take f.Length)))).set
          "id_datetime"
          (Value.string (L.formatRFC3339Nano (bytesToInt64 ((dat.drop off).take f.Length))))) := by
  unfold parseRecordWithRefs.step
  rw [if_neg (by omega), if_pos hT]

theorem parse_step_plain (L : Lib) (fs : FS) (dat : List Byte) (schema N : String) (f : field)
    (r : GoMap) (off : Nat) (hT1 : f.Typ ≠ "timeID") (hT2 : f.Typ ≠ "ref")
    (hlen : off + f.Length ≤ dat.length) :
    parseRecordWithRefs.step L fs dat schema N f r off
      = some (r.set f.Name (deserializeField f ((dat.drop off).take f.Length))) := by
  unfold parseRecordWithRefs.step
  rw [if_neg (by omega), if_neg hT1, if_neg hT2]

theorem parse_step_ref (L : Lib) (fs : FS) (dat : List Byte) (schema N : String) (f : field)
    (r : GoMap) (off : Nat) (hT : f.Typ = "ref") (h8 : 8 ≤ f.Length)
    (hlen : off + f.Length ≤ dat.length) :
    parseRecordWithRefs.step L fs dat schema N f r off
      = match fs.readFile (refFilePath (mainPath ++ "/" ++ schema) N f.Name) with
        | none =>
          some (r.set f.Name (Value.string (bytesOf ("Error reading ref data: "
            ++ fs.errorText (refFilePath (mainPath ++ "/" ++ schema) N f.Name)))))
        | some refData =>
          if bytesToInt64 (((dat.drop off).take f.Length).take 8) < refData.length ∧
              bytesToInt64 (((dat.drop off).take f.Length).drop 8) ≤ refData.length then
            if bytesToInt64 (((dat.drop off).take f.Length).take 8) < 0 ∨
                bytesToInt64 (((dat.drop off).take f.Length).drop 8)
                  < bytesToInt64 (((dat.drop off).take f.Length).take 8) then none
            else
              some (r.set f.Name (Value.string
                ((refData.drop (bytesToInt64 (((dat.drop off).take f.Length).take 8)).toNat).take
                  (bytesToInt64 (((dat.drop off).take f.Length).drop 8)
                    - bytesToInt64 (((dat.drop off).take f.Length).take 8)).toNat)))
          else some (r.set f.Name (Value.string invalidReferenceRange)) := by
  have hnt : ¬ f.Typ = "timeID" := by rw [hT]; decide
  unfold parseRecordWithRefs.step
  rw [if_neg (by omega), if_neg hnt, if_pos hT, if_neg (by omega)]

/-! ## Serialization lemmas -/

theorem int64ToBytes_length (v : Int) (n : Nat) : (int64ToBytes v n).length = n := by
  simp [int64ToBytes]

theorem stringToBytes_length (s : List Byte) (n : Nat) : (stringToBytes s n).length = n := by
  simp only [stringToBytes, List.length_append, List.length_take, List.length_replicate]
  omega

theorem serializeField_length (f : field) (v : Value) (b : List Byte) (hw : WidthOK f)
    (h : serializeField f v = Except.ok b) : b.length = f.Length := by
  unfold serializeField at h
  split_ifs at h with h1 h2 h3 h4 h5
  all_goals (split at h)
  all_goals first
    | (cases Except.ok.inj h
       first
         | exact int64ToBytes_length _ _
         | exact stringToBytes_length _ _
         | (rw [hw.2.2 h3]; exact int64ToBytes_length _ _))
    | (simp at h)

theorem serializeField_timeID (f : field) (v : Value) (b : List Byte) (hT : f.Typ = "timeID")
    (h : serializeField f v = Except.ok b) :
    ∃ x, v = Value.int64 x ∧ b = int64ToBytes x f.Length := by
  unfold serializeField at h
  rw [if_pos hT] at h
  split at h
  · exact ⟨_, rfl, (Except.ok.inj h).symm⟩
  · exact absurd h (by simp)

theorem serializeField_int64 (f : field) (x : Int) (b : List Byte)
    (h : serializeField f (Value.int64 x) = Except.ok b) : f.Typ = "timeID" := by
  unfold serializeField at h
  by_contra hT
  rw [if_neg hT] at h
  split_ifs at h

/-! ## Insert then read, one field -/

theorem bytesToInt64_int64ToBytes_8 (x : Int) (h : -2 ^ 63 ≤ x ∧ x < 2 ^ 63) :
    bytesToInt64 (int64ToBytes x 8) = x := by
  rw [bytesToInt64_int64ToBytes_wide x 8 (le_refl _), toInt64_of_range x h]

theorem step_decode_ref (L : Lib) (schema N : String) (d : GoMap) (f : field)
    (fsA fsB fsC : FS) (b dat : List Byte) (r : GoMap) (off : Nat)
    (hT : f.Typ = "ref")
    (hstep : addToTable.step (mainPath ++ "/" ++ schema) N d f fsA = (fsB, Except.ok b))
    (hw : WidthOK f) (hext : FS.Extends fsB fsC)
    (hsize : fsC.size (refFilePath (mainPath ++ "/" ++ schema) N f.Name) < 2 ^ 63)
    (hdat : (dat.drop off).take f.Length = b) (hlen : off + f.Length ≤ dat.length) :
    b.length = f.Length ∧
      ∃ r1, parseRecordWithRefs.step L fsC dat schema N f r off = some r1 ∧ Wrote d f r r1 := by
  have hL : f.Length = 16 := hw.1 hT
  have hnt : ¬ f.Typ = "timeID" := by rw [hT]; decide
  rw [parse_step_ref L fsC dat schema N f r off hT (by omega) hlen, hdat]
  unfold addToTable.step at hstep
  rw [if_pos hT] at hstep
  cases ho : fsA.openAppend (refFilePath (mainPath ++ "/" ++ schema) N f.Name) with
  | none => rw [ho] at hstep; simp at hstep
  | some fs1 =>
    rw [ho] at hstep
    simp only [] at hstep
    obtain ⟨⟨old, hold⟩, -, -⟩ := FS.openAppend_spec ho
    cases hd : d f.Name with
    | none =>
      rw [hd] at hstep
      simp only [Prod.mk.injEq, Except.ok.injEq] at hstep
      obtain ⟨-, rfl⟩ := hstep
      have h1 : bytesToInt64 (List.take 8 (List.replicate 16 (0 : Byte))) = 0 := by decide
      have h2 : bytesToInt64 (List.drop 8 (List.replicate 16 (0 : Byte))) = 0 := by decide
      refine ⟨by simp [hL], ?_⟩
      rw [h1, h2]
      cases hr : fsC.readFile (refFilePath (mainPath ++ "/" ++ schema) N f.Name) with
      | none =>
        exact ⟨_, rfl, _, Or.inl rfl, fun x h => by rw [hd] at h; simp at h,
          fun _ u h => by rw [hd] at h; simp at h⟩
      | some refData =>
        simp only []
        split_ifs with hg hp
        · omega
        · exact ⟨_, rfl, _, Or.inl rfl, fun x h => by rw [hd] at h; simp at h,
            fun _ u h => by rw [hd] at h; simp at h⟩
        · exact ⟨_, rfl, _, Or.inl rfl, fun x h => by rw [hd] at h; simp at h,
            fun _ u h => by rw [hd] at h; simp at h⟩
    | some u =>
      rw [hd] at hstep
      cases u with
      | string t =>
        simp only [Prod.mk.injEq, Except.ok.injEq] at hstep
        obtain ⟨hfs, rfl⟩ := hstep
        have hB : fsB (refFilePath (mainPath ++ "/" ++ schema) N f.Name)
            = some (Node.file (old ++ (t ++ [10]))) := by
          rw [← hfs]; exact FS.append_same _ _ _ _ hold
        obtain ⟨y, hC⟩ := hext _ _ hB
        rw [FS.size_eq hC] at hsize
        simp only [List.length_append, List.length_cons, List.length_nil] at hsize
        rw [FS.size_eq hold]
        have hr1 : -2 ^ 63 ≤ (old.length : Int) ∧ (old.length : Int) < 2 ^ 63 := by
          constructor <;> omega
        have hr2 : -2 ^ 63 ≤ (old.length : Int) + (t.length : Int) ∧
            (old.length : Int) + (t.length : Int) < 2 ^ 63 := by
          constructor <;> omega
        rw [toInt64_of_range _ hr2]
        refine ⟨by simp [int64ToBytes_length, hL], ?_⟩
        rw [List.take_left' (int64ToBytes_length _ 8), List.drop_left' (int64ToBytes_length _ 8),
          bytesToInt64_int64ToBytes_8 _ hr1, bytesToInt64_int64ToBytes_8 _ hr2,
          FS.readFile_eq hC]
        simp only []
        rw [if_pos (by
              simp only [List.length_append, List.length_cons, List.length_nil]
              constructor <;> omega),
          if_neg (by omega)]
        refine ⟨_, rfl, Value.string t, Or.inl ?_, fun x h => by rw [hd] at h; simp at h,
          fun _ u h => by rw [hd] at h; exact ⟨t, (Option.some.inj h).symm, rfl⟩⟩
        have e1 : ((old.length : Int)).toNat = old.length := by simp
        have e2 : ((old.length : Int) + (t.length : Int) - (old.length : Int)).toNat
            = t.length := by simp
        rw [e1, e2, List.append_assoc, List.drop_left, List.append_assoc, List.take_left]
      | int v => simp at hstep
      | int64 v => simp at hstep
      | float64 v => simp at hstep
      | nil => simp at hstep
      | other => simp at hstep

theorem step_decode_plain (L : Lib) (schema N : String) (d : GoMap) (f : field)
    (fsA fsB fsC : FS) (b dat : List Byte) (r : GoMap) (off : Nat)
    (hT : ¬ f.Typ = "ref")
    (hstep : addToTable.step (mainPath ++ "/" ++ schema) N d f fsA = (fsB, Except.ok b))
    (hw : WidthOK f)
    (hdat : (dat.drop off).take f.Length = b) (hlen : off + f.Length ≤ dat.length) :
    b.length = f.Length ∧
      ∃ r1, parseRecordWithRefs.step L fsC dat schema N f r off = some r1 ∧ Wrote d f r r1 := by
  unfold addToTable.step at hstep
  rw [if_neg hT] at hstep
  cases hd : d f.Name with
  | none =>
    rw [hd] at hstep
    simp only [] at hstep
    by_cases hc : containsConstraint f.Constraints NotNull = true
    · rw [if_pos hc] at hstep; simp at hstep
    rw [if_neg hc] at hstep
    simp only [Prod.mk.injEq, Except.ok.injEq] at hstep
    obtain ⟨-, rfl⟩ := hstep
    refine ⟨by simp, ?_⟩
    by_cases hid : f.Typ = "timeID"
    · rw [parse_step_timeID L fsC dat schema N f r off hid hlen]
      exact ⟨_, rfl, _, Or.inr ⟨hid, _, rfl⟩, fun x h => by rw [hd] at h; simp at h,
        fun h => absurd h hT⟩
    · rw [parse_step_plain L fsC dat schema N f r off hid hT hlen]
      exact ⟨_, rfl, _, Or.inl rfl, fun x h => by rw [hd] at h; simp at h,
        fun h => absurd h hT⟩
  | some value =>
    rw [hd] at hstep
    simp only [] at hstep
    cases hs : serializeField f value with
    | error e => rw [hs] at hstep; simp at hstep
    | ok fb =>
      rw [hs] at hstep
      simp only [Prod.mk.injEq, Except.ok.injEq] at hstep
      obtain ⟨-, rfl⟩ := hstep
      refine ⟨serializeField_length f value fb hw hs, ?_⟩
      by_cases hid : f.Typ = "timeID"
      · rw [parse_step_timeID L fsC dat schema N f r off hid hlen, hdat]
        obtain ⟨x, rfl, rfl⟩ := serializeField_timeID f value fb hid hs
        refine ⟨_, rfl, _, Or.inr ⟨hid, _, rfl⟩, ?_, fun h => absurd h hT⟩
        intro x1 h hlo hhi
        rw [hd] at h
        cases Option.some.inj h
        rw [hw.2.1 hid, bytesToInt64_int64ToBytes_8 x ⟨hlo, hhi⟩]
      · rw [parse_step_plain L fsC dat schema N f r off hid hT hlen]
        refine ⟨_, rfl, _, Or.inl rfl, ?_, fun h => absurd h hT⟩
        intro x h _ _
        rw [hd] at h
        cases Option.some.inj h
        exact absurd (serializeField_int64 f x fb hs) hid

theorem step_decode (L : Lib) (schema N : String) (d : GoMap) (f : field)
    (fsA fsB fsC : FS) (b dat : List Byte) (r : GoMap) (off : Nat)
    (hstep : addToTable.step (mainPath ++ "/" ++ schema) N d f fsA = (fsB, Except.ok b))
    (hw : WidthOK f) (hext : FS.Extends fsB fsC)
    (hsize : f.Typ = "ref" →
      fsC.size (refFilePath (mainPath ++ "/" ++ schema) N f.Name) < 2 ^ 63)
    (hdat : (dat.drop off).take f.Length = b) (hlen : off + f.Length ≤ dat.length) :
    b.length = f.Length ∧
      ∃ r1, parseRecordWithRefs.step L fsC dat schema N f r off = some r1 ∧ Wrote d f r r1 := by
  by_cases hT : f.Typ = "ref"
  · exact step_decode_ref L schema N d f fsA fsB fsC b dat r off hT hstep hw hext (hsize hT)
      hdat hlen
  · exact step_decode_plain L schema N d f fsA fsB fsC b dat r off hT hstep hw hdat hlen

theorem step_length (P N : String) (d : GoMap) (f : field) (fsA fsB : FS) (b : List Byte)
    (hstep : addToTable.step P N d f fsA = (fsB, Except.ok b)) (hw : WidthOK f) :
    b.length = f.Length := by
  unfold addToTable.step at hstep
  by_cases hT : f.Typ = "ref"
  · rw [if_pos hT] at hstep
    cases ho : fsA.openAppend (refFilePath P N f.Name) with
    | none => rw [ho] at hstep; simp at hstep
    | some fs1 =>
      rw [ho] at hstep
      simp only [] at hstep
      split at hstep
      · simp only [Prod.mk.injEq, Except.ok.injEq] at hstep
        rw [← hstep.2, hw.1 hT]; simp
      · simp only [Prod.mk.injEq, Except.ok.injEq] at hstep
        rw [← hstep.2, hw.1 hT]; simp [int64ToBytes_length]
      · simp at hstep
  · rw [if_neg hT] at hstep
    split at hstep
    · split at hstep
      · simp at hstep
      · simp only [Prod.mk.injEq, Except.ok.injEq] at hstep
        rw [← hstep.2]
        exact serializeField_length f _ _ hw (by assumption)
    · by_cases hc : containsConstraint f.Constraints NotNull = true
      · rw [if_pos hc] at hstep; simp at hstep
      · rw [if_neg hc] at hstep
        simp only [Prod.mk.injEq, Except.ok.injEq] at hstep
        rw [← hstep.2]; simp

/-! ## Insert then read, the whole record -/

theorem slice_mid (pre b rest : List Byte) :
    ((pre ++ (b ++ rest)).drop pre.length).take b.length = b := by
  simp

theorem loop_decode (L : Lib) (schema N : String) (d : GoMap) (l : List field) :
    ∀ (fsA fsB : FS) (binA binB : List Byte),
    addToTable.loop (mainPath ++ "/" ++ schema) N d l fsA binA = (fsB, Except.ok binB) →
    (∀ f ∈ l, WidthOK f) →
    ∃ enc, binB = binA ++ enc ∧ enc.length = calculateRecordSize l ∧
      ∀ (fsC : FS), FS.Extends fsB fsC →
        (∀ f ∈ l, f.Typ = "ref" →
          fsC.size (refFilePath (mainPath ++ "/" ++ schema) N f.Name) < 2 ^ 63) →
        ∀ (pre post : List Byte) (r : GoMap),
          ∃ r1, parseRecordWithRefs.loop L fsC (pre ++ enc ++ post) schema N l r pre.length
              = some r1 ∧ Decoded d l r r1 := by
  induction l with
  | nil =>
    intro fsA fsB binA binB h _
    unfold addToTable.loop at h
    simp only [Prod.mk.injEq, Except.ok.injEq] at h
    refine ⟨[], by simp [h.2], rfl, ?_⟩
    intro fsC _ _ pre post r
    exact ⟨r, rfl, rfl⟩
  | cons f rest ih =>
    intro fsA fsB binA binB h hw
    unfold addToTable.loop at h
    rcases hstep : addToTable.step (mainPath ++ "/" ++ schema) N d f fsA with ⟨fs1, res⟩
    rw [hstep] at h
    cases res with
    | error e => simp at h
    | ok b =>
      simp only [] at h
      have hwf : WidthOK f := hw f (List.mem_cons_self _ _)
      have hb : b.length = f.Length := step_length _ N d f fsA fs1 b hstep hwf
      obtain ⟨enc, hbin, hlen, hparse⟩ := ih fs1 fsB (binA ++ b) binB h
        (fun g hg => hw g (List.mem_cons_of_mem _ hg))
      refine ⟨b ++ enc, by rw [hbin, List.append_assoc], ?_, ?_⟩
      · rw [List.length_append, hlen, hb, calculateRecordSize_cons]
      · intro fsC hext hsize pre post r
        have hext1 : FS.Extends fs1 fsC := by
          have := (addToTable_loop_files (mainPath ++ "/" ++ schema) N d rest fs1 (binA ++ b)).2
          rw [h] at this
          exact this.trans hext
        have hdat : ((pre ++ (b ++ enc) ++ post).drop pre.length).take f.Length = b := by
          rw [← hb, List.append_assoc, List.append_assoc]
          exact slice_mid pre b (enc ++ post)
        have hl : pre.length + f.Length ≤ (pre ++ (b ++ enc) ++ post).length := by
          simp only [List.length_append]; omega
        obtain ⟨-, r0, hr0, hwrote⟩ := step_decode L schema N d f fsA fs1 fsC b
          (pre ++ (b ++ enc) ++ post) r pre.length hstep hwf hext1
          (fun hT => hsize f (List.mem_cons_self _ _) hT) hdat hl
        obtain ⟨r1, hr1, hdec⟩ := hparse fsC hext
          (fun g hg => hsize g (List.mem_cons_of_mem _ hg)) (pre ++ b) post r0
        refine ⟨r1, ?_, r0, hwrote, hdec⟩
        unfold parseRecordWithRefs.loop
        rw [hr0]
        simp only []
        rw [← hr1]
        congr 1
        · simp [List.append_assoc]
        · simp [hb]

/-! ## Keys of the decoded record -/

theorem wrote_other (d : GoMap) (f : field) (r r1 : GoMap) (k : String) (h : Wrote d f r r1)
    (hk : f.Name ≠ k) (hid : f.Typ = "timeID" → k ≠ "id_datetime") : r1 k = r k := by
  obtain ⟨v, hr, -, -⟩ := h
  rcases hr with rfl | ⟨hT, w, rfl⟩
  · simp [GoMap.set, Ne.symm hk]
  · simp [GoMap.set, Ne.symm hk, hid hT]

theorem decoded_frame (d : GoMap) (l : List field) (k : String) : ∀ (r r1 : GoMap),
    Decoded d l r r1 →
    (∀ g ∈ l, g.Name ≠ k ∧ (g.Typ = "timeID" → k ≠ "id_datetime")) → r1 k = r k := by
  induction l with
  | nil => intro r r1 h _; rw [show r1 = r from h]
  | cons f rest ih =>
    intro r r1 h hk
    obtain ⟨r0, hw, hd⟩ := h
    rw [ih r0 r1 hd (fun g hg => hk g (List.mem_cons_of_mem _ hg))]
    exact wrote_other d f r r0 k hw (hk f (List.mem_cons_self _ _)).1
      (hk f (List.mem_cons_self _ _)).2

theorem decoded_int64 (d : GoMap) (l : List field) (k : String) (x : Int)
    (hd : d k = some (Value.int64 x)) (hx : -2 ^ 63 ≤ x ∧ x < 2 ^ 63)
    (hk : k ≠ "id_datetime") : ∀ (r r1 : GoMap), Decoded d l r r1 →
    (r k = some (Value.int64 x) ∨ ∃ f ∈ l, f.Name = k) → r1 k = some (Value.int64 x) := by
  induction l with
  | nil =>
    intro r r1 h hor
    rw [show r1 = r from h]
    rcases hor with h1 | ⟨f, hf, -⟩
    · exact h1
    · simp at hf
  | cons f rest ih =>
    intro r r1 h hor
    obtain ⟨r0, hw, hdec⟩ := h
    apply ih r0 r1 hdec
    by_cases hfk : f.Name = k
    · left
      obtain ⟨v, hr, hv, -⟩ := hw
      have hvx : v = Value.int64 x := hv x (by rw [hfk]; exact hd) hx.1 hx.2
      rcases hr with rfl | ⟨-, w, rfl⟩
      · simp [GoMap.set, hfk, hvx]
      · simp [GoMap.set, hfk, hvx, hk]
    · rcases hor with h1 | ⟨g, hg, hgk⟩
      · left
        obtain ⟨v, hr, -, -⟩ := hw
        rcases hr with rfl | ⟨-, w, rfl⟩
        · simp [GoMap.set, Ne.symm hfk, h1]
        · simp [GoMap.set, Ne.symm hfk, h1, hk]
      · right
        rcases List.mem_cons.1 hg with rfl | hg
        · exact absurd hgk hfk
        · exact ⟨g, hg, hgk⟩

theorem decoded_ref (d : GoMap) (f : field) (post : List field) (t : List Byte)
    (hT : f.Typ = "ref") (hd : d f.Name = some (Value.string t))
    (hpost : ∀ g ∈ post, g.Name ≠ f.Name ∧ (g.Typ = "timeID" → f.Name ≠ "id_datetime")) :
    ∀ (pre : List field) (r r1 : GoMap), Decoded d (pre ++ f :: post) r r1 →
    r1 f.Name = some (Value.string t) := by
  intro pre
  induction pre with
  | nil =>
    intro r r1 h
    obtain ⟨r0, hw, hdec⟩ := h
    rw [decoded_frame d post f.Name r0 r1 hdec hpost]
    obtain ⟨v, hr, -, hv⟩ := hw
    obtain ⟨t1, ht1, hvt⟩ := hv hT _ hd
    cases ht1
    rcases hr with rfl | ⟨hid, -, -⟩
    · simp [GoMap.set, hvt]
    · rw [hT] at hid
      exact absurd hid (by decide)
  | cons g pre ih =>
    intro r r1 h
    obtain ⟨r0, -, hdec⟩ := h
    exact ih r0 r1 hdec

/-! ## What a successful `createTable` leaves -/

theorem FS.create_spec {fs fs1 : FS} {p : String} (h : fs.create p = some fs1) :
    fs1 = Function.update fs p (some (Node.file [])) := by
  unfold FS.create at h
  split at h
  · exact absurd h (by simp)
  · exact (Option.some.inj h).symm

theorem FS.writeFile_spec {fs fs1 : FS} {p : String} {b : List Byte}
    (h : fs.writeFile p b = some fs1) : fs1 = Function.update fs p (some (Node.file b)) := by
  unfold FS.writeFile at h
  split at h
  · exact absurd h (by simp)
  · exact (Option.some.inj h).symm

theorem createTable_refFiles_spec (P N : String) (l : List field) : ∀ (fs : FS),
    (∀ q, (∀ f ∈ l, q ≠ refFilePath P N f.Name) → (createTable.refFiles P N l fs).1 q = fs q) ∧
    (∀ resp, (createTable.refFiles P N l fs).2 = some resp → resp.num = 500) := by
  induction l with
  | nil => intro fs; exact ⟨fun _ _ => rfl, fun _ h => absurd h (by simp [createTable.refFiles])⟩
  | cons f rest ih =>
    intro fs
    unfold createTable.refFiles
    by_cases hT : f.Typ = "ref"
    · rw [if_pos hT]
      cases hc : fs.create (refFilePath P N f.Name) with
      | none =>
        refine ⟨fun _ _ => rfl, fun resp h => ?_⟩
        simp only [Option.some.injEq] at h
        rw [← h]
      | some fs1 =>
        simp only []
        refine ⟨fun q hq => ?_, (ih fs1).2⟩
        rw [(ih fs1).1 q (fun g hg => hq g (List.mem_cons_of_mem _ hg)), FS.create_spec hc]
        exact Function.update_noteq (hq f (List.mem_cons_self _ _)) _ _
    · rw [if_neg hT]
      exact ⟨fun q hq => (ih fs).1 q (fun g hg => hq g (List.mem_cons_of_mem _ hg)), (ih fs).2⟩

theorem createTable_ok (L : Lib) (fs : FS) (createdAt name schema : String)
    (fields : List field)
    (h : (createTable L fs createdAt name schema fields).1.num = 200) :
    validateFieldLengths (timePKField :: fields) = none ∧
    (createTable L fs createdAt name schema fields).2 (mainPath ++ "/" ++ schema)
      = fs (mainPath ++ "/" ++ schema) ∧
    fs.stat (mainPath ++ "/" ++ schema) = true ∧
    (createTable L fs createdAt name schema fields).2
        (mainPath ++ "/" ++ schema ++ "/" ++ name ++ ".conf" ++ fileEnding)
      = some (Node.file (L.marshalIndent ⟨name, createdAt, timePKField :: fields⟩)) ∧
    (createTable L fs createdAt name schema fields).2
        (mainPath ++ "/" ++ schema ++ "/" ++ name ++ fileEnding)
      = some (Node.file []) := by
  rcases hres : createTable L fs createdAt name schema fields with ⟨resp, fs1⟩
  rw [hres] at h
  simp only [] at h ⊢
  unfold createTable at hres
  simp only [] at hres
  have bad : ∀ (m : String) (x : FS) (n : Nat), n ≠ 200 →
      ((⟨n, m⟩ : response), x) = (resp, fs1) → False := by
    intro m x n hn he
    have := congrArg (fun y => y.1.num) he
    simp only [] at this
    omega
  by_cases c1 : schema.length = 0
  · rw [if_pos c1] at hres; exact (bad _ _ _ (by decide) hres).elim
  rw [if_neg c1] at hres
  by_cases c2 : ¬ fs.stat (mainPath ++ "/" ++ schema) = true
  · rw [if_pos c2] at hres; exact (bad _ _ _ (by decide) hres).elim
  rw [if_neg c2] at hres
  by_cases c3 : fs.stat (mainPath ++ "/" ++ schema ++ "/" ++ name ++ fileEnding) = true
  · rw [if_pos c3] at hres; exact (bad _ _ _ (by decide) hres).elim
  rw [if_neg c3] at hres
  by_cases c4 : name.length = 0
  · rw [if_pos c4] at hres; exact (bad _ _ _ (by decide) hres).elim
  rw [if_neg c4] at hres
  by_cases c5 : (".".toList.isPrefixOf name.toList) = true
  · rw [if_pos c5] at hres; exact (bad _ _ _ (by decide) hres).elim
  rw [if_neg c5] at hres
  by_cases c6 : name = "index"
  · rw [if_pos c6] at hres; exact (bad _ _ _ (by decide) hres).elim
  rw [if_neg c6] at hres
  cases hv : validateFieldLengths (timePKField :: fields) with
  | some err => rw [hv] at hres; exact (bad _ _ _ (by decide) hres).elim
  | none =>
    rw [hv] at hres
    simp only [] at hres
    cases hc : fs.create (mainPath ++ "/" ++ schema ++ "/" ++ name ++ fileEnding) with
    | none => rw [hc] at hres; exact (bad _ _ _ (by decide) hres).elim
    | some fsa =>
      rw [hc] at hres
      simp only [] at hres
      have hrf := createTable_refFiles_spec (mainPath ++ "/" ++ schema) name
        (timePKField :: fields) fsa
      rcases hr : createTable.refFiles (mainPath ++ "/" ++ schema) name
        (timePKField :: fields) fsa with ⟨fsb, ro⟩
      rw [hr] at hres hrf
      cases ro with
      | some resp1 =>
        simp only [] at hres
        have := hrf.2 resp1 rfl
        have he := congrArg (fun y => y.1.num) hres
        simp only [] at he
        omega
      | none =>
        simp only [] at hres
        cases hcc : fsb.create (mainPath ++ "/" ++ schema ++ "/" ++ name ++ ".conf"
            ++ fileEnding) with
        | none => rw [hcc] at hres; exact (bad _ _ _ (by decide) hres).elim
        | some fsc =>
          rw [hcc] at hres
          simp only [] at hres
          cases hwf : fsc.writeFile (mainPath ++ "/" ++ schema ++ "/" ++ name ++ ".conf"
              ++ fileEnding) (L.marshalIndent ⟨name, createdAt, timePKField :: fields⟩) with
          | none => rw [hwf] at hres; exact (bad _ _ _ (by decide) hres).elim
          | some fsd =>
            rw [hwf] at hres
            simp only [Prod.mk.injEq] at hres
            obtain ⟨-, rfl⟩ := hres
            rw [FS.writeFile_spec hwf, FS.create_spec hcc]
            have hfa := FS.create_spec hc
            have e1 : fsb (mainPath ++ "/" ++ schema) = fs (mainPath ++ "/" ++ schema) := by
              rw [show fsb _ = fsa _ from hrf.1 _ (fun g _ => (refFilePath_ne_schema _ _ _).symm),
                hfa]
              exact Function.update_noteq (dataPath_ne_schema _ _).symm _ _
            have e2 : fsb (mainPath ++ "/" ++ schema ++ "/" ++ name ++ fileEnding)
                = some (Node.file []) := by
              rw [show fsb _ = fsa _ from hrf.1 _ (fun g _ => (refFilePath_ne_data _ _ _).symm),
                hfa]
              exact Function.update_same _ _ _
            refine ⟨rfl, ?_, by simpa using c2, ?_, ?_⟩
            · rw [Function.update_noteq (confPath_ne_schema _ _).symm,
                Function.update_noteq (confPath_ne_schema _ _).symm, e1]
            · exact Function.update_same _ _ _
            · rw [Function.update_noteq (confPath_ne_data _ _).symm,
                Function.update_noteq (confPath_ne_data _ _).symm, e2]

/-! ## What a successful `addToTable` does -/

theorem validateFieldLengths_none (l : List field) (h : validateFieldLengths l = none) :
    ∀ f ∈ l, (f.Typ = "ref" → f.Length = 16) ∧ (f.Typ = "timeID" → f.Length = 8) := by
  induction l with
  | nil => intro f hf; simp at hf
  | cons g rest ih =>
    unfold validateFieldLengths at h
    by_cases h1 : g.Typ = "ref" ∧ g.Length ≠ Uint128Length
    · rw [if_pos h1] at h; simp at h
    rw [if_neg h1] at h
    by_cases h2 : g.Typ = "timeID" ∧ g.Length ≠ 8
    · rw [if_pos h2] at h; simp at h
    rw [if_neg h2] at h
    intro f hf
    rcases List.mem_cons.1 hf with rfl | hf
    · constructor
      · intro hT
        by_contra hne
        exact h1 ⟨hT, hne⟩
      · intro hT
        by_contra hne
        exact h2 ⟨hT, hne⟩
    · exact ih h f hf

theorem addToTable_step_error (P N : String) (d : GoMap) (f : field) (fs fs1 : FS)
    (resp : response) (h : addToTable.step P N d f fs = (fs1, Except.error resp)) :
    resp.num = 406 ∨ resp.num = 500 := by
  unfold addToTable.step at h
  by_cases hT : f.Typ = "ref"
  · rw [if_pos hT] at h
    cases ho : fs.openAppend (refFilePath P N f.Name) with
    | none =>
      rw [ho] at h
      simp only [Prod.mk.injEq, Except.error.injEq] at h
      rw [← h.2]; right; rfl
    | some fs0 =>
      rw [ho] at h
      simp only [] at h
      split at h
      · simp at h
      · simp at h
      · simp only [Prod.mk.injEq, Except.error.injEq] at h
        rw [← h.2]; left; rfl
  · rw [if_neg hT] at h
    split at h
    · split at h
      · simp only [Prod.mk.injEq, Except.error.injEq] at h
        rw [← h.2]; left; rfl
      · simp at h
    · by_cases hc : containsConstraint f.Constraints NotNull = true
      · rw [if_pos hc] at h
        simp only [Prod.mk.injEq, Except.error.injEq] at h
        rw [← h.2]; left; rfl
      · rw [if_neg hc] at h; simp at h

theorem addToTable_loop_error (P N : String) (d : GoMap) (l : List field) :
    ∀ (fs fs1 : FS) (bin : List Byte) (resp : response),
    addToTable.loop P N d l fs bin = (fs1, Except.error resp) →
    resp.num = 406 ∨ resp.num = 500 := by
  induction l with
  | nil => intro fs fs1 bin resp h; simp [addToTable.loop] at h
  | cons f rest ih =>
    intro fs fs1 bin resp h
    unfold addToTable.loop at h
    rcases hstep : addToTable.step P N d f fs with ⟨fs0, res⟩
    rw [hstep] at h
    cases res with
    | error e =>
      simp only [Prod.mk.injEq, Except.error.injEq] at h
      rw [← h.2]
      exact addToTable_step_error P N d f fs fs0 e hstep
    | ok b => exact ih fs0 fs1 (bin ++ b) resp h

theorem FS.openAppend_file {fs : FS} {p : String} {b : List Byte}
    (h : fs p = some (Node.file b)) : fs.openAppend p = some fs := by
  unfold FS.openAppend
  rw [h]

theorem addToTable_ok (L : Lib) (fs : FS) (last now : Int) (schema N : String) (data : GoMap)
    (cb : List Byte) (t : table)
    (hconf : fs.readFile (mainPath ++ "/" ++ schema ++ "/" ++ N ++ ".conf" ++ fileEnding)
      = some cb)
    (hun : L.unmarshal cb = Except.ok t)
    (h : (addToTable L fs last now schema N data).1.num = 200) :
    ∃ fsL bin fsM,
      addToTable.loop (mainPath ++ "/" ++ schema) N
          (data.set "id" (Value.int64 (generateUniqueTimestamp now last).1)) t.Fields fs []
        = (fsL, Except.ok bin) ∧
      fsL.openAppend (mainPath ++ "/" ++ schema ++ "/" ++ N ++ fileEnding) = some fsM ∧
      (addToTable L fs last now schema N data).2.1
        = fsM.append (mainPath ++ "/" ++ schema ++ "/" ++ N ++ fileEnding) bin := by
  unfold addToTable at h ⊢
  simp only [] at h ⊢
  by_cases c1 : ¬ fs.stat (mainPath ++ "/" ++ schema) = true
  · rw [if_pos c1] at h; simp at h
  rw [if_neg c1] at h ⊢
  by_cases c2 : ¬ fs.stat (mainPath ++ "/" ++ schema ++ "/" ++ N ++ ".conf" ++ fileEnding) = true
  · rw [if_pos c2] at h; simp at h
  rw [if_neg c2] at h ⊢
  rw [hconf] at h ⊢
  simp only [] at h ⊢
  rw [hun] at h ⊢
  simp only [] at h ⊢
  rcases hloop : addToTable.loop (mainPath ++ "/" ++ schema) N
      (data.set "id" (Value.int64 (generateUniqueTimestamp now last).1)) t.Fields fs []
    with ⟨fsL, res⟩
  rw [hloop] at h
  cases res with
  | error e =>
    simp only [] at h
    have := addToTable_loop_error _ _ _ _ _ _ _ _ hloop
    omega
  | ok bin =>
    simp only [] at h ⊢
    cases ho : fsL.openAppend (mainPath ++ "/" ++ schema ++ "/" ++ N ++ fileEnding) with
    | none => rw [ho] at h; simp at h
    | some fsM => exact ⟨fsL, bin, fsM, rfl, ho, by simp only [ho]⟩

/-! ## Insert then read -/

theorem generateUniqueTimestamp_range (now last : Int) (hnow : -2 ^ 63 ≤ now ∧ now < 2 ^ 63) :
    -2 ^ 63 ≤ (generateUniqueTimestamp now last).1 ∧
      (generateUniqueTimestamp now last).1 < 2 ^ 63 := by
  unfold generateUniqueTimestamp toInt64
  split
  · exact hnow
  · simp only
    omega

theorem decoded_ref_supplied (d : GoMap) (f : field) (post : List field) (hT : f.Typ = "ref") :
    ∀ (pre : List field) (r r1 : GoMap), Decoded d (pre ++ f :: post) r r1 →
    ∀ u, d f.Name = some u → ∃ t, u = Value.string t := by
  intro pre
  induction pre with
  | nil =>
    intro r r1 h u hu
    obtain ⟨r0, ⟨v, -, -, hv⟩, -⟩ := h
    obtain ⟨t, ht, -⟩ := hv hT u hu
    exact ⟨t, ht⟩
  | cons g pre ih =>
    intro r r1 h
    obtain ⟨r0, -, hdec⟩ := h
    exact ih r0 r1 hdec

theorem insert_then_read (L : Lib) (fs : FS) (createdAt name schema : String)
    (fields : List field) (last now : Int) (data : GoMap)
    (hjson : L.unmarshal (L.marshalIndent ⟨name, createdAt, timePKField :: fields⟩)
      = Except.ok ⟨name, createdAt, timePKField :: fields⟩)
    (hfloat : ∀ f ∈ fields, f.Typ = "float" → f.Length = 8)
    (hcreate : (createTable L fs createdAt name schema fields).1.num = 200)
    (hnow : -2 ^ 63 ≤ now ∧ now < 2 ^ 63)
    (hadd : (addToTable L (createTable L fs createdAt name schema fields).2 last now schema name
      data).1.num = 200)
    (hsize : ∀ f ∈ fields, f.Typ = "ref" →
      ((addToTable L (createTable L fs createdAt name schema fields).2 last now schema name
        data).2.1).size (refFilePath (mainPath ++ "/" ++ schema) name f.Name) < 2 ^ 63) :
    ∃ record : GoMap,
      readTable L (addToTable L (createTable L fs createdAt name schema fields).2 last now
          schema name data).2.1 schema name
        = Run.done (⟨200, "Table read successfully"⟩, [record]) ∧
      record "id" = some (Value.int64 (generateUniqueTimestamp now last).1) ∧
      ∀ (pre : List field) (f : field) (post : List field) (t : List Byte),
        timePKField :: fields = pre ++ f :: post → f.Typ = "ref" →
        data f.Name = some (Value.string t) →
        (∀ g ∈ post, g.Name ≠ f.Name ∧ (g.Typ = "timeID" → f.Name ≠ "id_datetime")) →
        record f.Name = some (Value.string t) := by
  obtain ⟨hval, hP, hstat, hconf, hdata⟩ := createTable_ok L fs createdAt name schema fields hcreate
  obtain ⟨fsL, bin, fsM, hloop, hopen, hfs2⟩ := addToTable_ok L _ last now schema name data _ _
    (FS.readFile_eq hconf) hjson hadd
  rw [hfs2] at hsize ⊢
  generalize createTable L fs createdAt name schema fields = ct at *
  -- widths
  have hw : ∀ f ∈ timePKField :: fields, WidthOK f := by
    intro f hf
    have hv := validateFieldLengths_none _ hval f hf
    refine ⟨hv.1, hv.2, ?_⟩
    rcases List.mem_cons.1 hf with rfl | hf
    · intro h; exact absurd h (by decide)
    · exact hfloat f hf
  -- the files after the field loop
  have hfiles := addToTable_loop_files (mainPath ++ "/" ++ schema) name
    (data.set "id" (Value.int64 (generateUniqueTimestamp now last).1)) (timePKField :: fields)
    ct.2 []
  rw [hloop] at hfiles
  have hLdata : fsL (mainPath ++ "/" ++ schema ++ "/" ++ name ++ fileEnding)
      = some (Node.file []) := by
    rw [show fsL _ = ct.2 _ from hfiles.1 _ (fun g _ => (refFilePath_ne_data _ _ _).symm)]
    exact hdata
  have hLconf : fsL (mainPath ++ "/" ++ schema ++ "/" ++ name ++ ".conf" ++ fileEnding)
      = some (Node.file (L.marshalIndent ⟨name, createdAt, timePKField :: fields⟩)) := by
    rw [show fsL _ = ct.2 _ from hfiles.1 _ (fun g _ => (refFilePath_ne_conf _ _ _).symm)]
    exact hconf
  have hLP : fsL (mainPath ++ "/" ++ schema) = fs (mainPath ++ "/" ++ schema) := by
    rw [show fsL _ = ct.2 _ from hfiles.1 _ (fun g _ => (refFilePath_ne_schema _ _ _).symm)]
    exact hP
  have hM : fsM = fsL := by
    rw [FS.openAppend_file hLdata] at hopen
    exact (Option.some.inj hopen).symm
  subst hM
  -- the record written
  obtain ⟨enc, hbin, hlen, hparse⟩ := loop_decode L schema name _ _ _ _ _ _ hloop hw
  simp only [List.nil_append] at hbin
  subst hbin
  obtain ⟨r1, hr1, hdec⟩ := hparse _ (FS.append_extends _ _ _)
    (fun g hg hT => by
      rcases List.mem_cons.1 hg with rfl | hg
      · exact absurd hT (by decide)
      · exact hsize g hg hT) [] [] GoMap.empty
  simp only [List.nil_append, List.append_nil, List.length_nil] at hr1
  -- the files read
  have h2data := FS.append_same fsM _ bin _ hLdata
  simp only [List.nil_append] at h2data
  have h2conf : (fsM.append (mainPath ++ "/" ++ schema ++ "/" ++ name ++ fileEnding) bin)
      (mainPath ++ "/" ++ schema ++ "/" ++ name ++ ".conf" ++ fileEnding)
      = some (Node.file (L.marshalIndent ⟨name, createdAt, timePKField :: fields⟩)) := by
    rw [FS.append_frame _ _ _ _ (confPath_ne_data _ _)]; exact hLconf
  have h2P : (fsM.append (mainPath ++ "/" ++ schema ++ "/" ++ name ++ fileEnding) bin).stat
      (mainPath ++ "/" ++ schema) = true := by
    unfold FS.stat at hstat ⊢
    rw [FS.append_frame _ _ _ _ (dataPath_ne_schema _ _).symm, hLP]; exact hstat
  have hS : 0 < calculateRecordSize (timePKField :: fields) := by
    rw [calculateRecordSize_cons]
    have : timePKField.Length = 8 := rfl
    omega
  have hdiv : bin.length / calculateRecordSize (timePKField :: fields) = 1 := by
    rw [hlen]; exact Nat.div_self hS
  obtain ⟨records, hread, hrl, hget⟩ := readTable_slots L _ schema name _ bin
    ⟨name, createdAt, timePKField :: fields⟩ h2P (FS.readFile_eq h2conf) hjson
    (FS.readFile_eq h2data) hS (by
      intro k hk
      rw [hdiv] at hk
      have hk0 : k = 0 := by omega
      subst hk0
      simp only [Nat.zero_mul, List.drop_zero, ← hlen, List.take_length]
      unfold parseRecordWithRefs
      rw [hr1]; rfl)
  rw [hdiv] at hrl
  have h0 := hget 0 (by omega)
  simp only [Nat.zero_mul, List.drop_zero, ← hlen, List.take_length] at h0
  unfold parseRecordWithRefs at h0
  rw [hr1] at h0
  have hrec : records = [r1] := by
    match records, hrl, h0 with
    | [x], _, h0 => simp only [List.get_eq_getElem, List.getElem_cons_zero] at h0
                    rw [Option.some.inj h0]
  subst hrec
  refine ⟨r1, hread, ?_, ?_⟩
  · exact decoded_int64 _ (timePKField :: fields) "id" _ (by simp [GoMap.set])
      (generateUniqueTimestamp_range now last hnow) (by decide) _ _ hdec
      (Or.inr ⟨timePKField, List.mem_cons_self _ _, rfl⟩)
  · intro pre f post t hsplit hT hd hpost
    rw [hsplit] at hdec
    have hne : f.Name ≠ "id" := by
      intro hid
      obtain ⟨t1, ht1⟩ := decoded_ref_supplied _ f post hT pre _ _ hdec
        (Value.int64 (generateUniqueTimestamp now last).1) (by simp [GoMap.set, hid])
      exact absurd ht1 (by simp)
    exact decoded_ref _ f post t hT (by simp [GoMap.set, hne, hd]) hpost pre _ _ hdec

/-- C3, counterexample: in the table `dup` the ref field `r` is followed by a
string field `r` of width 4. createTable and addToTable both answer 200 for
the text "hello", and readTable returns one record whose key `r` holds
"hell". -/
theorem C3_counterexample :
    (createTable dupLib fsWithSchema "now" "dup" "s" dupFields).1.num = 200 ∧
    dataHello "r" = some (Value.string [104, 101, 108, 108, 111]) ∧
    (addToTable dupLib dupFS 0 1000 "s" "dup" dataHello).1.num = 200 ∧
    ((readTable dupLib (addToTable dupLib dupFS 0 1000 "s" "dup" dataHello).2.1 "s"
        "dup").result.map fun x => (x.1.num, x.2.map fun record => record "r"))
      = some (200, [some (Value.string [104, 101, 108, 108])]) := by
  decide

/-- C3, amended: for every table freshly created by createTable whose float
fields all have width 8, and every data map for which addToTable returns 200
(the clock reading an int64, the side files shorter than 2^63 bytes), a
following readTable returns 200 with exactly one record, whose id equals the
id addToTable generated, and in which every supplied ref field holds exactly
the supplied text (any text) provided no later field of the table has the
same name and, if the field is named id_datetime, no later field has type
timeID. -/
theorem C3_insert_then_read (L : Lib) (fs : FS) (createdAt name schema : String)
    (fields : List field) (last now : Int) (data : GoMap)
    (hjson : L.unmarshal (L.marshalIndent ⟨name, createdAt, timePKField :: fields⟩)
      = Except.ok ⟨name, createdAt, timePKField :: fields⟩)
    (hfloat : ∀ f ∈ fields, f.Typ = "float" → f.Length = 8)
    (hcreate : (createTable L fs createdAt name schema fields).1.num = 200)
    (hnow : -2 ^ 63 ≤ now ∧ now < 2 ^ 63)
    (hadd : (addToTable L (createTable L fs createdAt name schema fields).2 last now schema name
      data).1.num = 200)
    (hsize : ∀ f ∈ fields, f.Typ = "ref" →
      ((addToTable L (createTable L fs createdAt name schema fields).2 last now schema name
        data).2.1).size (refFilePath (mainPath ++ "/" ++ schema) name f.Name) < 2 ^ 63) :
    ∃ record : GoMap,
      readTable L (addToTable L (createTable L fs createdAt name schema fields).2 last now
          schema name data).2.1 schema name
        = Run.done (⟨200, "Table read successfully"⟩, [record]) ∧
      record "id" = some (Value.int64 (generateUniqueTimestamp now last).1) ∧
      ∀ (pre : List field) (f : field) (post : List field) (t : List Byte),
        timePKField :: fields = pre ++ f :: post → f.Typ = "ref" →
        data f.Name = some (Value.string t) →
        (∀ g ∈ post, g.Name ≠ f.Name ∧ (g.Typ = "timeID" → f.Name ≠ "id_datetime")) →
        record f.Name = some (Value.string t) :=
  insert_then_read L fs createdAt name schema fields last now data hjson hfloat hcreate hnow
    hadd hsize

set_option maxRecDepth 4000 in
theorem C3_insert_then_read_witness :
    ∃ record : GoMap,
      readTable textLib (addToTable textLib
          (createTable textLib fsWithSchema "now" "texts" "s" textFields).2 0 1000
          "s" "texts" dataText).2.1 "s" "texts"
        = Run.done (⟨200, "Table read successfully"⟩, [record]) ∧
      record "id" = some (Value.int64 (generateUniqueTimestamp 1000 0).1) ∧
      ∀ (pre : List field) (f : field) (post : List field) (t : List Byte),
        timePKField :: textFields = pre ++ f :: post → f.Typ = "ref" →
        dataText f.Name = some (Value.string t) →
        (∀ g ∈ post, g.Name ≠ f.Name ∧ (g.Typ = "timeID" → f.Name ≠ "id_datetime")) →
        record f.Name = some (Value.string t) :=
  C3_insert_then_read textLib fsWithSchema "now" "texts" "s" textFields 0 1000 dataText rfl
    (by decide) (by decide) (by decide) (by decide) (by decide)

/-! ## Insert: the shape of every outcome -/

theorem addToTable_cases (L : Lib) (fs : FS) (last now : Int) (schema N : String)
    (data : GoMap) :
    ((addToTable L fs last now schema N data).1.num ≠ 200 ∧
      (addToTable L fs last now schema N data).2.1 = fs) ∨
    ∃ cb t fsL res,
      fs.readFile (mainPath ++ "/" ++ schema ++ "/" ++ N ++ ".conf" ++ fileEnding) = some cb ∧
      L.unmarshal cb = Except.ok t ∧
      addToTable.loop (mainPath ++ "/" ++ schema) N
          (data.set "id" (Value.int64 (generateUniqueTimestamp now last).1)) t.Fields fs []
        = (fsL, res) ∧
      ((∃ e, res = Except.error e ∧ (addToTable L fs last now schema N data).1 = e ∧
          (addToTable L fs last now schema N data).2.1 = fsL) ∨
        ∃ bin, res = Except.ok bin ∧
          ((fsL.openAppend (mainPath ++ "/" ++ schema ++ "/" ++ N ++ fileEnding) = none ∧
              (addToTable L fs last now schema N data).1.num = 500 ∧
              (addToTable L fs last now schema N data).2.1 = fsL) ∨
            ∃ fsM, fsL.openAppend (mainPath ++ "/" ++ schema ++ "/" ++ N ++ fileEnding)
                = some fsM ∧
              (addToTable L fs last now schema N data).1.num = 200 ∧
              (addToTable L fs last now schema N data).2.1
                = fsM.append (mainPath ++ "/" ++ schema ++ "/" ++ N ++ fileEnding) bin)) := by
  unfold addToTable
  simp only []
  by_cases c1 : ¬ fs.stat (mainPath ++ "/" ++ schema) = true
  · rw [if_pos c1]; left; exact ⟨by simp, rfl⟩
  rw [if_neg c1]
  by_cases c2 : ¬ fs.stat (mainPath ++ "/" ++ schema ++ "/" ++ N ++ ".conf" ++ fileEnding) = true
  · rw [if_pos c2]; left; exact ⟨by simp, rfl⟩
  rw [if_neg c2]
  cases hconf : fs.readFile (mainPath ++ "/" ++ schema ++ "/" ++ N ++ ".conf" ++ fileEnding) with
  | none => left; exact ⟨by simp, rfl⟩
  | some cb =>
    simp only []
    cases hun : L.unmarshal cb with
    | error e => left; exact ⟨by simp, rfl⟩
    | ok t =>
      simp only []
      right
      rcases hloop : addToTable.loop (mainPath ++ "/" ++ schema) N
          (data.set "id" (Value.int64 (generateUniqueTimestamp now last).1)) t.Fields fs []
        with ⟨fsL, res⟩
      refine ⟨cb, t, fsL, res, rfl, hun, hloop, ?_⟩
      cases res with
      | error e => left; exact ⟨e, rfl, by simp only [hloop], by simp only [hloop]⟩
      | ok bin =>
        right
        refine ⟨bin, rfl, ?_⟩
        simp only []
        cases ho : fsL.openAppend (mainPath ++ "/" ++ schema ++ "/" ++ N ++ fileEnding) with
        | none => left; exact ⟨rfl, by simp [hloop, ho], by simp [hloop, ho]⟩
        | some fsM =>
          right
          exact ⟨fsM, rfl, by simp [hloop, ho], by simp [hloop, ho]⟩

/-- Whatever addToTable answers, every file keeps its bytes, with bytes
appended at most. -/
theorem addToTable_extends (L : Lib) (fs : FS) (last now : Int) (schema N : String)
    (data : GoMap) : FS.Extends fs (addToTable L fs last now schema N data).2.1 := by
  rcases addToTable_cases L fs last now schema N data with ⟨-, h⟩ |
    ⟨cb, t, fsL, res, -, -, hloop, h⟩
  · rw [h]; exact FS.Extends.refl _
  · have hL := (addToTable_loop_files (mainPath ++ "/" ++ schema) N
      (data.set "id" (Value.int64 (generateUniqueTimestamp now last).1)) t.Fields fs []).2
    rw [hloop] at hL
    rcases h with ⟨e, -, -, h⟩ | ⟨bin, -, ⟨-, -, h⟩ | ⟨fsM, ho, -, h⟩⟩
    · rw [h]; exact hL
    · rw [h]; exact hL
    · rw [h]
      exact (hL.trans (FS.openAppend_spec ho).2.2).trans (FS.append_extends _ _ _)

/-- An answer other than 200 leaves the primary data file as it was. -/
theorem addToTable_failure_keeps_data (L : Lib) (fs : FS) (last now : Int)
    (schema N : String) (data : GoMap)
    (h : (addToTable L fs last now schema N data).1.num ≠ 200) :
    (addToTable L fs last now schema N data).2.1
        (mainPath ++ "/" ++ schema ++ "/" ++ N ++ fileEnding)
      = fs (mainPath ++ "/" ++ schema ++ "/" ++ N ++ fileEnding) := by
  rcases addToTable_cases L fs last now schema N data with ⟨-, h1⟩ |
    ⟨cb, t, fsL, res, -, -, hloop, h1⟩
  · rw [h1]
  · have hL := (addToTable_loop_files (mainPath ++ "/" ++ schema) N
      (data.set "id" (Value.int64 (generateUniqueTimestamp now last).1)) t.Fields fs []).1
      (mainPath ++ "/" ++ schema ++ "/" ++ N ++ fileEnding)
      (fun g _ => (refFilePath_ne_data _ _ _).symm)
    rw [hloop] at hL
    rcases h1 with ⟨e, -, -, h2⟩ | ⟨bin, -, ⟨-, -, h2⟩ | ⟨fsM, -, h200, -⟩⟩
    · rw [h2]; exact hL
    · rw [h2]; exact hL
    · exact absurd h200 h

theorem addToTable_loop_not_null (P N : String) (d : GoMap) (f : field)
    (hT : f.Typ ≠ "ref") (hc : containsConstraint f.Constraints NotNull = true)
    (hd : d f.Name = none) (l : List field) : ∀ (fs : FS) (bin : List Byte), f ∈ l →
    ∃ e, (addToTable.loop P N d l fs bin).2 = Except.error e := by
  induction l with
  | nil => intro fs bin hf; simp at hf
  | cons g rest ih =>
    intro fs bin hf
    unfold addToTable.loop
    rcases hstep : addToTable.step P N d g fs with ⟨fs1, res⟩
    cases res with
    | error e => exact ⟨e, rfl⟩
    | ok b =>
      simp only []
      rcases List.mem_cons.1 hf with rfl | hf
      · unfold addToTable.step at hstep
        rw [if_neg hT, hd] at hstep
        simp only [hc, if_true] at hstep
        simp at hstep
      · exact ih fs1 (bin ++ b) hf

/-- A missing value for a not_null field that is not a ref field is refused:
addToTable answers something other than 200 and the primary data file is as
it was. -/
theorem addToTable_missing_not_null (L : Lib) (fs : FS) (last now : Int) (schema N : String)
    (data : GoMap) (cb : List Byte) (t : table) (f : field)
    (hconf : fs.readFile (mainPath ++ "/" ++ schema ++ "/" ++ N ++ ".conf" ++ fileEnding)
      = some cb)
    (hun : L.unmarshal cb = Except.ok t)
    (hf : f ∈ t.Fields) (hT : f.Typ ≠ "ref")
    (hc : containsConstraint f.Constraints NotNull = true)
    (hid : f.Name ≠ "id") (hd : data f.Name = none) :
    (addToTable L fs last now schema N data).1.num ≠ 200 ∧
    (addToTable L fs last now schema N data).2.1
        (mainPath ++ "/" ++ schema ++ "/" ++ N ++ fileEnding)
      = fs (mainPath ++ "/" ++ schema ++ "/" ++ N ++ fileEnding) := by
  have hne : (addToTable L fs last now schema N data).1.num ≠ 200 := by
    intro h200
    obtain ⟨fsL, bin, fsM, hloop, -, -⟩ := addToTable_ok L fs last now schema N data cb t
      hconf hun h200
    obtain ⟨e, he⟩ := addToTable_loop_not_null (mainPath ++ "/" ++ schema) N
      (data.set "id" (Value.int64 (generateUniqueTimestamp now last).1)) f hT hc
      (by simp [GoMap.set, hid, hd]) t.Fields fs [] hf
    rw [hloop] at he
    simp at he
  exact ⟨hne, addToTable_failure_keeps_data L fs last now schema N data hne⟩

/-- When every field has a width on which writer and reader agree, a 200
appends exactly calculateRecordSize bytes to the primary data file. -/
theorem addToTable_appends_record_size (L : Lib) (fs : FS) (last now : Int)
    (schema N : String) (data : GoMap) (cb old : List Byte) (t : table)
    (hconf : fs.readFile (mainPath ++ "/" ++ schema ++ "/" ++ N ++ ".conf" ++ fileEnding)
      = some cb)
    (hun : L.unmarshal cb = Except.ok t)
    (hw : ∀ f ∈ t.Fields, WidthOK f)
    (hold : fs (mainPath ++ "/" ++ schema ++ "/" ++ N ++ fileEnding) = some (Node.file old))
    (h : (addToTable L fs last now schema N data).1.num = 200) :
    ∃ enc, enc.length = calculateRecordSize t.Fields ∧
      (addToTable L fs last now schema N data).2.1
          (mainPath ++ "/" ++ schema ++ "/" ++ N ++ fileEnding)
        = some (Node.file (old ++ enc)) := by
  obtain ⟨fsL, bin, fsM, hloop, hopen, hfs⟩ := addToTable_ok L fs last now schema N data cb t
    hconf hun h
  obtain ⟨enc, hbin, hlen, -⟩ := loop_decode L schema N _ _ _ _ _ _ hloop hw
  have hL := (addToTable_loop_files (mainPath ++ "/" ++ schema) N
    (data.set "id" (Value.int64 (generateUniqueTimestamp now last).1)) t.Fields fs []).1
    (mainPath ++ "/" ++ schema ++ "/" ++ N ++ fileEnding)
    (fun g _ => (refFilePath_ne_data _ _ _).symm)
  rw [hloop] at hL
  have hLd : fsL (mainPath ++ "/" ++ schema ++ "/" ++ N ++ fileEnding)
      = some (Node.file old) := hL.trans hold
  rw [FS.openAppend_file hLd] at hopen
  cases Option.some.inj hopen
  refine ⟨enc, hlen, ?_⟩
  rw [hfs, FS.append_same _ _ _ _ hLd, hbin, List.nil_append]

/-! ## A sequence of inserts -/

/-- addToTable changes no path other than the primary data file and the side
files of the table. -/
theorem addToTable_frame (L : Lib) (fs : FS) (last now : Int) (schema N : String)
    (data : GoMap) (q : String)
    (hq : q ≠ mainPath ++ "/" ++ schema ++ "/" ++ N ++ fileEnding)
    (hr : ∀ F, q ≠ refFilePath (mainPath ++ "/" ++ schema) N F) :
    (addToTable L fs last now schema N data).2.1 q = fs q := by
  rcases addToTable_cases L fs last now schema N data with ⟨-, h⟩ |
    ⟨cb, t, fsL, res, -, -, hloop, h⟩
  · rw [h]
  · have hL := (addToTable_loop_files (mainPath ++ "/" ++ schema) N
      (data.set "id" (Value.int64 (generateUniqueTimestamp now last).1)) t.Fields fs []).1 q
      (fun g _ => hr g.Name)
    rw [hloop] at hL
    rcases h with ⟨e, -, -, h⟩ | ⟨bin, -, ⟨-, -, h⟩ | ⟨fsM, ho, -, h⟩⟩
    · rw [h]; exact hL
    · rw [h]; exact hL
    · rw [h, FS.append_frame _ _ _ q hq, (FS.openAppend_spec ho).2.1 q hq]
      exact hL

theorem readTable_loop_flatten (decode : List Byte → Option GoMap) (S : Nat) (hS : 0 < S)
    (encs : List (List Byte)) (rs : List GoMap)
    (h : List.Forall₂ (fun e r => e.length = S ∧ decode e = some r) encs rs) :
    ∀ (pre : List Byte) (records : List GoMap) (fuel : Nat), encs.length < fuel →
    readTable.loop decode (pre ++ encs.flatten) S fuel pre.length records
      = Run.done (records ++ rs) := by
  induction h with
  | nil =>
    intro pre records fuel hf
    cases fuel with
    | zero => omega
    | succ fuel =>
      unfold readTable.loop
      simp
  | @cons e r encs rs he _ ih =>
    intro pre records fuel hf
    cases fuel with
    | zero => omega
    | succ fuel =>
      unfold readTable.loop
      have h1 : pre.length < (pre ++ (e :: encs).flatten).length := by
        simp only [List.flatten_cons, List.length_append]; omega
      have h2 : ¬ pre.length + S > (pre ++ (e :: encs).flatten).length := by
        simp only [List.flatten_cons, List.length_append]; omega
      have h3 : ((pre ++ (e :: encs).flatten).drop pre.length).take S = e := by
        rw [List.flatten_cons, ← he.1]
        exact slice_mid pre e encs.flatten
      rw [if_pos h1, if_neg h2, h3, he.2]
      simp only []
      have := ih (pre ++ e) (records ++ [r]) fuel (by simp only [List.length_cons] at hf; omega)
      simp only [List.length_append, List.append_assoc, he.1] at this
      simpa [List.append_assoc] using this

theorem readTable_of_loop (L : Lib) (fs : FS) (schema tableName : String)
    (cb dataBytes : List Byte) (t : table) (recs : List GoMap)
    (hschema : fs.stat (mainPath ++ "/" ++ schema) = true)
    (hconf : fs.readFile (mainPath ++ "/" ++ schema ++ "/" ++ tableName ++ ".conf"
      ++ fileEnding) = some cb)
    (hun : L.unmarshal cb = Except.ok t)
    (hdata : fs.readFile (mainPath ++ "/" ++ schema ++ "/" ++ tableName ++ fileEnding)
      = some dataBytes)
    (hloop : readTable.loop
        (fun recordBytes => parseRecordWithRefs L fs recordBytes t.Fields schema tableName)
        dataBytes (calculateRecordSize t.Fields) (dataBytes.length + 1) 0 [] = Run.done recs) :
    readTable L fs schema tableName = Run.done (⟨200, "Table read successfully"⟩, recs) := by
  have hsc : fs.stat (mainPath ++ "/" ++ schema ++ "/" ++ tableName ++ ".conf"
      ++ fileEnding) = true := by
    unfold FS.readFile at hconf
    unfold FS.stat
    split at hconf <;> simp_all
  have hsd : fs.stat (mainPath ++ "/" ++ schema ++ "/" ++ tableName ++ fileEnding) = true := by
    unfold FS.readFile at hdata
    unfold FS.stat
    split at hdata <;> simp_all
  unfold readTable
  simp only [hschema, hsc, hsd, hconf, hun, hdata, hloop, not_true_eq_false, if_false]

theorem flatten_length_ge {β : Type} (S : Nat) (hS : 0 < S) (P : List Byte → β → Prop)
    (encs : List (List Byte)) (rs : List β)
    (h : List.Forall₂ (fun e r => e.length = S ∧ P e r) encs rs) :
    encs.length ≤ encs.flatten.length := by
  induction h with
  | nil => simp
  | cons he _ ih =>
    simp only [List.length_cons, List.flatten_cons, List.length_append]
    omega

theorem createTable_tableState (L : Lib) (fs : FS) (createdAt name schema : String)
    (fields : List field)
    (hjson : L.unmarshal (L.marshalIndent ⟨name, createdAt, timePKField :: fields⟩)
      = Except.ok ⟨name, createdAt, timePKField :: fields⟩)
    (hfloat : ∀ f ∈ fields, f.Typ = "float" → f.Length = 8)
    (hcreate : (createTable L fs createdAt name schema fields).1.num = 200) :
    TableState L schema name ⟨name, createdAt, timePKField :: fields⟩
      (createTable L fs createdAt name schema fields).2 [] := by
  obtain ⟨hval, hP, hstat, hconf, hdata⟩ := createTable_ok L fs createdAt name schema fields hcreate
  refine ⟨?_, ⟨_, FS.readFile_eq hconf, hjson⟩, ?_, ⟨timePKField, List.mem_cons_self _ _, rfl⟩,
    [], by simpa using hdata, List.Forall₂.nil⟩
  · unfold FS.stat at hstat ⊢
    rw [hP]; exact hstat
  · intro f hf
    have hv := validateFieldLengths_none _ hval f hf
    refine ⟨hv.1, hv.2, ?_⟩
    rcases List.mem_cons.1 hf with rfl | hf
    · intro h; exact absurd h (by decide)
    · exact hfloat f hf

theorem sampleCalls_ids :
    (insertAll personLib "s" "persons" personFS 0 sampleCalls).ids = [1000, 1002] := by
  decide

/-! ## Claims on corrupt ref ranges -/

/-- The range check of the read loop, for a ref field at least 8 bytes wide
whose side file can be read: an end beyond the file or a start at or beyond
it gives the invalid-range marker; a pair that passes the check with a
negative start or with start greater than end is a panic; every other pair
gives the bytes from start to end. -/
theorem parse_step_ref_cases (L : Lib) (fs : FS) (dat : List Byte) (schema N : String)
    (f : field) (r : GoMap) (off : Nat) (refData : List Byte) (hT : f.Typ = "ref")
    (h8 : 8 ≤ f.Length) (hlen : off + f.Length ≤ dat.length)
    (hfile : fs.readFile (refFilePath (mainPath ++ "/" ++ schema) N f.Name) = some refData) :
    ((refData.length : Int) ≤ bytesToInt64 (((dat.drop off).take f.Length).take 8) ∨
        (refData.length : Int) < bytesToInt64 (((dat.drop off).take f.Length).drop 8) →
      parseRecordWithRefs.step L fs dat schema N f r off
        = some (r.set f.Name (Value.string invalidReferenceRange))) ∧
    (bytesToInt64 (((dat.drop off).take f.Length).take 8) < refData.length →
      bytesToInt64 (((dat.drop off).take f.Length).drop 8) ≤ refData.length →
      (bytesToInt64 (((dat.drop off).take f.Length).take 8) < 0 ∨
        bytesToInt64 (((dat.drop off).take f.Length).drop 8)
          < bytesToInt64 (((dat.drop off).take f.Length).take 8)) →
      parseRecordWithRefs.step L fs dat schema N f r off = none) ∧
    (0 ≤ bytesToInt64 (((dat.drop off).take f.Length).take 8) →
      bytesToInt64 (((dat.drop off).take f.Length).take 8)
        ≤ bytesToInt64 (((dat.drop off).take f.Length).drop 8) →
      bytesToInt64 (((dat.drop off).take f.Length).take 8) < refData.length →
      bytesToInt64 (((dat.drop off).take f.Length).drop 8) ≤ refData.length →
      parseRecordWithRefs.step L fs dat schema N f r off
        = some (r.set f.Name (Value.string
            ((refData.drop (bytesToInt64 (((dat.drop off).take f.Length).take 8)).toNat).take
              (bytesToInt64 (((dat.drop off).take f.Length).drop 8)
                - bytesToInt64 (((dat.drop off).take f.Length).take 8)).toNat)))) := by
  rw [parse_step_ref L fs dat schema N f r off hT h8 hlen, hfile]
  simp only []
  refine ⟨fun h => ?_, fun h1 h2 h3 => ?_, fun h0 h1 h2 h3 => ?_⟩
  · rw [if_neg (by omega)]
  · rw [if_pos ⟨h1, h2⟩, if_pos h3]
  · rw [if_pos ⟨h2, h3⟩, if_neg (by omega)]

/-- C12, the code at the failing input: the table `refs` has one ref field of
width 16. With a first slot whose offsets are start = -1, end = 1 and a
two-byte side file, the pair passes the range check and readTable panics, so
the second, well-formed record is lost as well; a first slot with end = 9
beyond the file gets the invalid-range marker and the second record is
decoded. -/
theorem C12_negative_start_panics :
    (readTable refsLib negativeStartFS "s" "refs").panicked = true ∧
    (readTable refsLib negativeStartFS "s" "refs").result.isNone = true ∧
    ((readTable refsLib endBeyondFS "s" "refs").result.map fun x =>
        (x.1.num, x.2.map fun r => r "note"))
      = some (200, [some (Value.string invalidReferenceRange), some (Value.string [104])]) := by
  decide

/-! ## The ID generator under interleaving -/

/-- A call that runs its three steps with no other call in between does what
the sequential function says. -/
theorem Gen.run_alone (last now a b : Int) :
    ((Gen.init last 1).run [(0, now), (0, a), (0, b)]).calls
        = [Pc.returned (generateUniqueTimestamp now last).1] ∧
    ((Gen.init last 1).run [(0, now), (0, a), (0, b)]).lastTimestamp
        = (generateUniqueTimestamp now last).2 := by
  unfold generateUniqueTimestamp
  by_cases h : now > last
  · simp [Gen.run, Gen.step, Gen.init, h]
  · simp [Gen.run, Gen.step, Gen.init, h]

theorem calls_set_idle (calls : List Pc) (log : List (Nat × Int × Int)) (i : Nat) (pc0 pc : Pc)
    (h0 : calls[i]? = some pc0) (hn0 : ∀ v, pc0 ≠ Pc.returned v) (hn : ∀ v, pc ≠ Pc.returned v)
    (h : ∀ j v, calls[j]? = some (Pc.returned v) ↔ ∃ cur, (j, cur, v) ∈ log) :
    ∀ j v, (calls.set i pc)[j]? = some (Pc.returned v) ↔ ∃ cur, (j, cur, v) ∈ log := by
  intro j v
  by_cases hji : i = j
  · subst hji
    have hlt : i < calls.length := by
      by_contra hc
      rw [List.getElem?_eq_none (by omega)] at h0
      simp at h0
    constructor
    · intro hs
      rw [List.getElem?_set_self hlt] at hs
      exact absurd (Option.some.inj hs) (hn v)
    · intro hl
      have := (h i v).2 hl
      rw [h0] at this
      exact absurd (Option.some.inj this) (hn0 v)
  · rw [List.getElem?_set_ne hji]
    exact h j v

theorem calls_set_returned (calls : List Pc) (log : List (Nat × Int × Int)) (i : Nat)
    (pc0 : Pc) (c x : Int) (h0 : calls[i]? = some pc0) (hn0 : ∀ v, pc0 ≠ Pc.returned v)
    (h : ∀ j v, calls[j]? = some (Pc.returned v) ↔ ∃ cur, (j, cur, v) ∈ log) :
    ∀ j v, (calls.set i (Pc.returned x))[j]? = some (Pc.returned v)
      ↔ ∃ cur, (j, cur, v) ∈ log ++ [(i, c, x)] := by
  intro j v
  by_cases hji : i = j
  · subst hji
    have hlt : i < calls.length := by
      by_contra hc
      rw [List.getElem?_eq_none (by omega)] at h0
      simp at h0
    rw [List.getElem?_set_self hlt]
    simp only [Option.some.injEq, Pc.returned.injEq, List.mem_append,
      List.mem_singleton, Prod.mk.injEq, true_and]
    constructor
    · intro hx
      exact ⟨c, Or.inr ⟨rfl, hx.symm⟩⟩
    · rintro ⟨cur, hl | ⟨-, hx⟩⟩
      · have := (h i v).2 ⟨cur, hl⟩
        rw [h0] at this
        exact absurd (Option.some.inj this) (hn0 v)
      · exact hx.symm
  · rw [List.getElem?_set_ne hji]
    simp only [List.mem_append, List.mem_singleton, Prod.mk.injEq]
    constructor
    · intro hs
      obtain ⟨cur, hc⟩ := (h j v).1 hs
      exact ⟨cur, Or.inl hc⟩
    · rintro ⟨cur, hl | ⟨hj, -⟩⟩
      · exact (h j v).2 ⟨cur, hl⟩
      · exact absurd hj.symm hji

theorem Gen.step_inv (g : Gen) (i : Nat) (now : Int) (hinv : g.Inv)
    (hmax : ∀ e ∈ (g.step i now).log, e.2.1 < 2 ^ 63 - 1) : (g.step i now).Inv := by
  obtain ⟨hlo, hle, hpw, hcalls⟩ := hinv
  unfold Gen.step at hmax ⊢
  cases hc : g.calls[i]? with
  | none => simp only []; exact ⟨hlo, hle, hpw, hcalls⟩
  | some pc =>
    rw [hc] at hmax
    cases pc with
    | clock =>
      exact ⟨hlo, hle, hpw,
        calls_set_idle g.calls g.log i _ _ hc (by simp) (by simp) hcalls⟩
    | load nt =>
      exact ⟨hlo, hle, hpw,
        calls_set_idle g.calls g.log i _ _ hc (by simp) (by simp) hcalls⟩
    | returned v => exact ⟨hlo, hle, hpw, hcalls⟩
    | cas nt cur =>
      simp only [] at hmax ⊢
      by_cases hgt : nt > cur
      · rw [if_pos hgt] at hmax ⊢
        by_cases heq : g.lastTimestamp = cur
        · rw [if_pos heq]
          refine ⟨by simp only []; omega, ?_, ?_,
            calls_set_returned g.calls g.log i _ cur nt hc (by simp) hcalls⟩
          · intro e he
            rcases List.mem_append.1 he with he | he
            · have := hle e he
              simp only []; omega
            · rw [List.mem_singleton.1 he]
          · rw [List.pairwise_append]
            refine ⟨hpw, List.pairwise_singleton _ _, ?_⟩
            intro a ha b hb
            rw [List.mem_singleton.1 hb]
            have := hle a ha
            simp only []; omega
        · rw [if_neg heq]
          exact ⟨hlo, hle, hpw,
            calls_set_idle g.calls g.log i _ _ hc (by simp) (by simp) hcalls⟩
      · rw [if_neg hgt] at hmax ⊢
        by_cases heq : g.lastTimestamp = cur
        · rw [if_pos heq] at hmax ⊢
          have hcur : cur < 2 ^ 63 - 1 :=
            hmax (i, cur, toInt64 (cur + 1)) (List.mem_append_right _ (List.mem_singleton_self _))
          have hv : toInt64 (cur + 1) = cur + 1 := toInt64_of_range _ ⟨by omega, by omega⟩
          rw [hv]
          refine ⟨by simp only []; omega, ?_, ?_,
            calls_set_returned g.calls g.log i _ cur (cur + 1) hc (by simp) hcalls⟩
          · intro e he
            rcases List.mem_append.1 he with he | he
            · have := hle e he
              simp only []; omega
            · rw [List.mem_singleton.1 he]
          · rw [List.pairwise_append]
            refine ⟨hpw, List.pairwise_singleton _ _, ?_⟩
            intro a ha b hb
            rw [List.mem_singleton.1 hb]
            have := hle a ha
            simp only []; omega
        · rw [if_neg heq]
          exact ⟨hlo, hle, hpw,
            calls_set_idle g.calls g.log i _ _ hc (by simp) (by simp) hcalls⟩

theorem Gen.step_log_prefix (g : Gen) (i : Nat) (now : Int) :
    g.log <+: (g.step i now).log := by
  unfold Gen.step
  cases g.calls[i]? with
  | none => exact List.prefix_refl _
  | some pc =>
    cases pc with
    | clock => exact List.prefix_refl _
    | load nt => exact List.prefix_refl _
    | returned v => exact List.prefix_refl _
    | cas nt cur =>
      simp only []
      split_ifs
      · exact List.prefix_append _ _
      · exact List.prefix_refl _
      · exact List.prefix_append _ _
      · exact List.prefix_refl _

theorem Gen.run_log_prefix (sched : List (Nat × Int)) : ∀ g : Gen,
    g.log <+: (g.run sched).log := by
  induction sched with
  | nil => intro g; exact List.prefix_refl _
  | cons s rest ih =>
    intro g
    obtain ⟨i, now⟩ := s
    exact (Gen.step_log_prefix g i now).trans (ih _)

theorem Gen.run_inv (sched : List (Nat × Int)) : ∀ g : Gen, g.Inv →
    (∀ e ∈ (g.run sched).log, e.2.1 < 2 ^ 63 - 1) → (g.run sched).Inv := by
  induction sched with
  | nil => intro g h _; exact h
  | cons s rest ih =>
    intro g h hmax
    obtain ⟨i, now⟩ := s
    exact ih _ (Gen.step_inv g i now h
      (fun e he => hmax e ((Gen.run_log_prefix rest _).subset he))) hmax

theorem Gen.init_inv (last : Int) (n : Nat) (hlo : -2 ^ 63 ≤ last) : (Gen.init last n).Inv := by
  refine ⟨hlo, by simp [Gen.init], by simp [Gen.init], ?_⟩
  intro i v
  simp only [Gen.init, List.not_mem_nil, exists_false, iff_false]
  intro h
  obtain ⟨hlt, he⟩ := List.getElem?_eq_some_iff.1 h
  simp at he

theorem log_values_injective (log : List (Nat × Int × Int))
    (h : log.Pairwise (fun a b => a.2.2 < b.2.2)) :
    ∀ a ∈ log, ∀ b ∈ log, a.2.2 = b.2.2 → a = b := by
  induction log with
  | nil => intro a ha; simp at ha
  | cons x rest ih =>
    intro a ha b hb hab
    rw [List.pairwise_cons] at h
    rcases List.mem_cons.1 ha with ha1 | ha1 <;> rcases List.mem_cons.1 hb with hb1 | hb1
    · rw [ha1, hb1]
    · have := h.1 b hb1
      rw [ha1] at hab
      omega
    · have := h.1 a ha1
      rw [hb1] at hab
      omega
    · exact ih h.2 a ha1 b hb1 hab

theorem Gen.run_spec (last : Int) (n : Nat) (sched : List (Nat × Int))
    (hlo : -2 ^ 63 ≤ last)
    (hmax : ∀ e ∈ ((Gen.init last n).run sched).log, e.2.1 < 2 ^ 63 - 1) :
    (((Gen.init last n).run sched).log.map fun e => e.2.2).Pairwise (· < ·) ∧
    (∀ (i : Nat) (v : Int), ((Gen.init last n).run sched).calls[i]? = some (Pc.returned v) ↔
      ∃ cur, (i, cur, v) ∈ ((Gen.init last n).run sched).log) ∧
    (∀ (i j : Nat) (v w : Int), i ≠ j →
      ((Gen.init last n).run sched).calls[i]? = some (Pc.returned v) →
      ((Gen.init last n).run sched).calls[j]? = some (Pc.returned w) → v ≠ w) := by
  obtain ⟨-, -, hpw, hcalls⟩ := Gen.run_inv sched _ (Gen.init_inv last n hlo) hmax
  refine ⟨by rw [List.pairwise_map]; exact hpw, hcalls, ?_⟩
  intro i j v w hij hi hj hvw
  obtain ⟨c1, h1⟩ := (hcalls i v).1 hi
  obtain ⟨c2, h2⟩ := (hcalls j w).1 hj
  have := log_values_injective _ hpw _ h1 _ h2 hvw
  simp only [Prod.mk.injEq] at this
  exact hij this.1

/-- C13, counterexample: three calls from `lastTimestamp` 0 with the clock at
2^63 - 1 return 2^63 - 1, then -2^63, then 2^63 - 1 again: the first and the
third call return the same value, and the values are not increasing in the
order of the successful compare-and-swap steps. -/
theorem C13_counterexample :
    ((Gen.init 0 3).run stuckClockSchedule).calls
      = [Pc.returned 9223372036854775807, Pc.returned (-9223372036854775808),
          Pc.returned 9223372036854775807] ∧
    (((Gen.init 0 3).run stuckClockSchedule).log.map fun e => e.2.2)
      = [9223372036854775807, -9223372036854775808, 9223372036854775807] := by
  decide

/-- C13, amended: for every N and every interleaving of the atomic steps
(read clock, load of lastTimestamp, compare-and-swap, retry on failure) of N
concurrent calls of generateUniqueTimestamp in which every successful
compare-and-swap swaps out a lastTimestamp below 2^63 - 1, the values swapped
in are strictly increasing in the order of the successful compare-and-swap
steps, a call has returned a value exactly when its compare-and-swap of that
value succeeded, and the values returned by different calls are distinct. -/
theorem C13_concurrent_uniqueness (last : Int) (n : Nat) (sched : List (Nat × Int))
    (hlo : -2 ^ 63 ≤ last)
    (hmax : ∀ e ∈ ((Gen.init last n).run sched).log, e.2.1 < 2 ^ 63 - 1) :
    (((Gen.init last n).run sched).log.map fun e => e.2.2).Pairwise (· < ·) ∧
    (∀ (i : Nat) (v : Int), ((Gen.init last n).run sched).calls[i]? = some (Pc.returned v) ↔
      ∃ cur, (i, cur, v) ∈ ((Gen.init last n).run sched).log) ∧
    (∀ (i j : Nat) (v w : Int), i ≠ j →
      ((Gen.init last n).run sched).calls[i]? = some (Pc.returned v) →
      ((Gen.init last n).run sched).calls[j]? = some (Pc.returned w) → v ≠ w) :=
  Gen.run_spec last n sched hlo hmax

theorem C13_concurrent_uniqueness_witness :
    (((Gen.init 0 2).run racingSchedule).log.map fun e => e.2.2).Pairwise (· < ·) ∧
    (∀ (i : Nat) (v : Int), ((Gen.init 0 2).run racingSchedule).calls[i]?
        = some (Pc.returned v) ↔
      ∃ cur, (i, cur, v) ∈ ((Gen.init 0 2).run racingSchedule).log) ∧
    (∀ (i j : Nat) (v w : Int), i ≠ j →
      ((Gen.init 0 2).run racingSchedule).calls[i]? = some (Pc.returned v) →
      ((Gen.init 0 2).run racingSchedule).calls[j]? = some (Pc.returned w) → v ≠ w) :=
  C13_concurrent_uniqueness 0 2 racingSchedule (by decide) (by decide)

theorem racingSchedule_result :
    ((Gen.init 0 2).run racingSchedule).calls = [Pc.returned 100, Pc.returned 101] ∧
    ((Gen.init 0 2).run racingSchedule).log = [(0, 0, 100), (1, 100, 101)] := by
  decide

/-! ## Claims on stored records -/

set_option maxRecDepth 8000 in
/-- C14, the code at the failing input: the fresh table `refs` gets a record
with no value for its ref field `note` (200), and readTable returns that
record with `note` holding the invalid-range marker. A second insert with the
text "hello" is answered 200, and readTable now returns the first record with
`note` holding the empty text, followed by the new record. -/
theorem C14_omitted_ref_changes :
    (createTable refsLib fsWithSchema "now" "refs" "s" refsFields).1.num = 200 ∧
    (addToTable refsLib refsFS 0 1000 "s" "refs" GoMap.empty).1.num = 200 ∧
    ((readTable refsLib omittedFS "s" "refs").result.map fun x =>
        (x.1.num, x.2.map fun r => (r "id", r "note")))
      = some (200, [(some (Value.int64 1000), some (Value.string invalidReferenceRange))]) ∧
    (addToTable refsLib omittedFS 1000 2000 "s" "refs" dataNote).1.num = 200 ∧
    ((readTable refsLib suppliedFS "s" "refs").result.map fun x =>
        (x.1.num, x.2.map fun r => (r "id", r "note")))
      = some (200, [(some (Value.int64 1000), some (Value.string [])),
          (some (Value.int64 2000), some (Value.string hello))]) := by
  decide

/-! ## Stored records under later inserts -/

theorem step_stable (L : Lib) (schema N : String) (d : GoMap) (f : field) (fsA fsB : FS)
    (b : List Byte)
    (hstep : addToTable.step (mainPath ++ "/" ++ schema) N d f fsA = (fsB, Except.ok b))
    (hw : WidthOK f) (hsup : f.Typ = "ref" → ∃ u, d f.Name = some u) :
    ∃ w : GoMap → GoMap, ∀ (fsC : FS) (dat : List Byte) (r : GoMap) (off : Nat),
      FS.Extends fsB fsC →
      (f.Typ = "ref" → fsC.size (refFilePath (mainPath ++ "/" ++ schema) N f.Name) < 2 ^ 63) →
      (dat.drop off).take f.Length = b → off + f.Length ≤ dat.length →
      parseRecordWithRefs.step L fsC dat schema N f r off = some (w r) := by
  by_cases hT : f.Typ = "ref"
  · obtain ⟨u, hu⟩ := hsup hT
    refine ⟨fun r => r.set f.Name u, ?_⟩
    intro fsC dat r off hext hsize hdat hlen
    obtain ⟨-, r1, hr1, v, hor, -, hv⟩ := step_decode_ref L schema N d f fsA fsB fsC b dat r off
      hT hstep hw hext (hsize hT) hdat hlen
    obtain ⟨t, hut, hvt⟩ := hv hT u hu
    rw [hr1]
    rcases hor with h | ⟨hid, -⟩
    · rw [h, hvt, hut]
    · rw [hT] at hid
      exact absurd hid (by decide)
  · by_cases hid : f.Typ = "timeID"
    · refine ⟨fun r => (r.set f.Name (Value.int64 (bytesToInt64 b))).set "id_datetime"
        (Value.string (L.formatRFC3339Nano (bytesToInt64 b))), ?_⟩
      intro fsC dat r off _ _ hdat hlen
      rw [parse_step_timeID L fsC dat schema N f r off hid hlen, hdat]
    · refine ⟨fun r => r.set f.Name (deserializeField f b), ?_⟩
      intro fsC dat r off _ _ hdat hlen
      rw [parse_step_plain L fsC dat schema N f r off hid hT hlen, hdat]

theorem loop_stable (L : Lib) (schema N : String) (d : GoMap) (l : List field) :
    ∀ (fsA fsB : FS) (binA binB : List Byte),
    addToTable.loop (mainPath ++ "/" ++ schema) N d l fsA binA = (fsB, Except.ok binB) →
    (∀ f ∈ l, WidthOK f) →
    (∀ f ∈ l, f.Typ = "ref" → ∃ u, d f.Name = some u) →
    ∃ (enc : List Byte) (W : GoMap → GoMap), binB = binA ++ enc ∧
      enc.length = calculateRecordSize l ∧
      ∀ (fsC : FS), FS.Extends fsB fsC →
        (∀ f ∈ l, f.Typ = "ref" →
          fsC.size (refFilePath (mainPath ++ "/" ++ schema) N f.Name) < 2 ^ 63) →
        ∀ (pre post : List Byte) (r : GoMap),
          parseRecordWithRefs.loop L fsC (pre ++ enc ++ post) schema N l r pre.length
            = some (W r) := by
  induction l with
  | nil =>
    intro fsA fsB binA binB h _ _
    unfold addToTable.loop at h
    simp only [Prod.mk.injEq, Except.ok.injEq] at h
    refine ⟨[], id, by simp [h.2], rfl, ?_⟩
    intro fsC _ _ pre post r
    rfl
  | cons f rest ih =>
    intro fsA fsB binA binB h hw hsup
    unfold addToTable.loop at h
    rcases hstep : addToTable.step (mainPath ++ "/" ++ schema) N d f fsA with ⟨fs1, res⟩
    rw [hstep] at h
    cases res with
    | error e => simp at h
    | ok b =>
      simp only [] at h
      have hwf : WidthOK f := hw f (List.mem_cons_self _ _)
      have hb : b.length = f.Length := step_length _ N d f fsA fs1 b hstep hwf
      obtain ⟨w, hwstep⟩ := step_stable L schema N d f fsA fs1 b hstep hwf
        (hsup f (List.mem_cons_self _ _))
      obtain ⟨enc, W, hbin, hlen, hparse⟩ := ih fs1 fsB (binA ++ b) binB h
        (fun g hg => hw g (List.mem_cons_of_mem _ hg))
        (fun g hg => hsup g (List.mem_cons_of_mem _ hg))
      refine ⟨b ++ enc, fun r => W (w r), by rw [hbin, List.append_assoc], ?_, ?_⟩
      · rw [List.length_append, hlen, hb, calculateRecordSize_cons]
      · intro fsC hext hsize pre post r
        have hext1 : FS.Extends fs1 fsC := by
          have := (addToTable_loop_files (mainPath ++ "/" ++ schema) N d rest fs1 (binA ++ b)).2
          rw [h] at this
          exact this.trans hext
        have hdat : ((pre ++ (b ++ enc) ++ post).drop pre.length).take f.Length = b := by
          rw [← hb, List.append_assoc, List.append_assoc]
          exact slice_mid pre b (enc ++ post)
        have hl : pre.length + f.Length ≤ (pre ++ (b ++ enc) ++ post).length := by
          simp only [List.length_append]; omega
        have hr0 := hwstep fsC (pre ++ (b ++ enc) ++ post) r pre.length hext1
          (fun hT => hsize f (List.mem_cons_self _ _) hT) hdat hl
        have hr1 := hparse fsC hext
          (fun g hg => hsize g (List.mem_cons_of_mem _ hg)) (pre ++ b) post (w r)
        unfold parseRecordWithRefs.loop
        rw [hr0]
        simp only []
        rw [← hr1]
        congr 1
        · simp [List.append_assoc]
        · simp [hb]

theorem SlotStable.extend {L : Lib} {schema N : String} {flds : List field} {fs fs1 : FS}
    {enc : List Byte} {record : GoMap} (hext : FS.Extends fs fs1)
    (h : SlotStable L schema N flds fs enc record) :
    SlotStable L schema N flds fs1 enc record :=
  ⟨h.1, fun fsC hC hsize => h.2 fsC (hext.trans hC) hsize⟩

theorem FS.Extends.size_le {a b : FS} (h : FS.Extends a b) (p : String) :
    a.size p ≤ b.size p := by
  unfold FS.size
  cases ha : a p with
  | none => simp
  | some n =>
    cases n with
    | dir => simp
    | file x =>
      obtain ⟨y, hy⟩ := h p x ha
      rw [hy]
      simp

theorem readTable_stable (L : Lib) (schema N : String) (t : table) (fs : FS)
    (records : List GoMap) (hts : StableTable L schema N t fs records)
    (hS : 0 < calculateRecordSize t.Fields)
    (hsize : ∀ f ∈ t.Fields, f.Typ = "ref" →
      fs.size (refFilePath (mainPath ++ "/" ++ schema) N f.Name) < 2 ^ 63) :
    readTable L fs schema N = Run.done (⟨200, "Table read successfully"⟩, records) := by
  obtain ⟨hP, ⟨cb, hconf, hun⟩, -, encs, hdata, hslots⟩ := hts
  have hrs : List.Forall₂ (fun e r => e.length = calculateRecordSize t.Fields ∧
      parseRecordWithRefs L fs e t.Fields schema N = some r) encs records :=
    hslots.imp (fun _ _ h => ⟨h.1, h.2 fs (FS.Extends.refl _) hsize⟩)
  apply readTable_of_loop L fs schema N cb encs.flatten t records hP hconf hun
    (FS.readFile_eq hdata)
  have := readTable_loop_flatten
    (fun recordBytes => parseRecordWithRefs L fs recordBytes t.Fields schema N)
    (calculateRecordSize t.Fields) hS encs records hrs [] [] (encs.flatten.length + 1)
    (Nat.lt_succ_of_le (flatten_length_ge _ hS _ encs records hrs))
  simpa using this

/-- The files after an insert into a table in place: the schema directory and
the definition document are as before; the data file is as before after an
answer other than 200, and after a 200 it has one more slot, which decodes in
every later file system, to one and the same record if the data map has a
value for every ref field. -/
theorem insert_files (L : Lib) (fs : FS) (last now : Int) (schema N : String) (data : GoMap)
    (t : table) (cb old : List Byte)
    (hP : fs.stat (mainPath ++ "/" ++ schema) = true)
    (hconf : fs.readFile (mainPath ++ "/" ++ schema ++ "/" ++ N ++ ".conf" ++ fileEnding)
      = some cb)
    (hun : L.unmarshal cb = Except.ok t) (hw : ∀ f ∈ t.Fields, WidthOK f)
    (hdata : fs (mainPath ++ "/" ++ schema ++ "/" ++ N ++ fileEnding) = some (Node.file old)) :
    (addToTable L fs last now schema N data).2.1.stat (mainPath ++ "/" ++ schema) = true ∧
    (addToTable L fs last now schema N data).2.1.readFile
      (mainPath ++ "/" ++ schema ++ "/" ++ N ++ ".conf" ++ fileEnding) = some cb ∧
    ((addToTable L fs last now schema N data).1.num ≠ 200 →
      (addToTable L fs last now schema N data).2.1
        (mainPath ++ "/" ++ schema ++ "/" ++ N ++ fileEnding) = some (Node.file old)) ∧
    ((addToTable L fs last now schema N data).1.num = 200 →
      ∃ enc, enc.length = calculateRecordSize t.Fields ∧
        (addToTable L fs last now schema N data).2.1
          (mainPath ++ "/" ++ schema ++ "/" ++ N ++ fileEnding)
          = some (Node.file (old ++ enc)) ∧
        (∀ fsC, FS.Extends (addToTable L fs last now schema N data).2.1 fsC →
          (∀ f ∈ t.Fields, f.Typ = "ref" →
            fsC.size (refFilePath (mainPath ++ "/" ++ schema) N f.Name) < 2 ^ 63) →
          ∃ r, parseRecordWithRefs L fsC enc t.Fields schema N = some r) ∧
        ((∀ f ∈ t.Fields, f.Typ = "ref" → f.Name ≠ "id" → ∃ u, data f.Name = some u) →
          ∃ record, SlotStable L schema N t.Fields
            (addToTable L fs last now schema N data).2.1 enc record)) := by
  refine ⟨?_, ?_, ?_, ?_⟩
  · unfold FS.stat at hP ⊢
    rw [addToTable_frame L fs last now schema N data _ (dataPath_ne_schema _ _).symm
      (fun F => (refFilePath_ne_schema _ _ _).symm)]
    exact hP
  · unfold FS.readFile at hconf ⊢
    rw [addToTable_frame L fs last now schema N data _ (confPath_ne_data _ _)
      (fun F => (refFilePath_ne_conf _ _ _).symm)]
    exact hconf
  · intro h
    rw [addToTable_failure_keeps_data L fs last now schema N data h]
    exact hdata
  · intro h200
    obtain ⟨fsL, bin, fsM, hloop, hopen, hfs⟩ := addToTable_ok L fs last now schema N data cb t
      hconf hun h200
    obtain ⟨enc, hbin, hlen, hparse⟩ := loop_decode L schema N _ _ _ _ _ _ hloop hw
    simp only [List.nil_append] at hbin
    subst hbin
    have hL := (addToTable_loop_files (mainPath ++ "/" ++ schema) N
      (data.set "id" (Value.int64 (generateUniqueTimestamp now last).1)) t.Fields fs []).1
      (mainPath ++ "/" ++ schema ++ "/" ++ N ++ fileEnding)
      (fun g _ => (refFilePath_ne_data _ _ _).symm)
    rw [hloop] at hL
    have hLd : fsL (mainPath ++ "/" ++ schema ++ "/" ++ N ++ fileEnding)
        = some (Node.file old) := hL.trans hdata
    rw [FS.openAppend_file hLd] at hopen
    cases Option.some.inj hopen
    have hLext : FS.Extends fsL (addToTable L fs last now schema N data).2.1 := by
      rw [hfs]; exact FS.append_extends _ _ _
    refine ⟨bin, hlen, by rw [hfs, FS.append_same _ _ _ _ hLd], ?_, ?_⟩
    · intro fsC hC hsize
      obtain ⟨r1, hr1, -⟩ := hparse fsC (hLext.trans hC) hsize [] [] GoMap.empty
      simp only [List.nil_append, List.append_nil, List.length_nil] at hr1
      exact ⟨r1, hr1⟩
    · intro hsup
      obtain ⟨enc2, W, hbin2, -, hst⟩ := loop_stable L schema N _ _ _ _ _ _ hloop hw
        (by
          intro f hf hT
          by_cases hid : f.Name = "id"
          · exact ⟨Value.int64 (generateUniqueTimestamp now last).1, by simp [GoMap.set, hid]⟩
          · obtain ⟨u, hu⟩ := hsup f hf hT hid
            exact ⟨u, by simp [GoMap.set, hid, hu]⟩)
      simp only [List.nil_append] at hbin2
      subst hbin2
      refine ⟨W GoMap.empty, hlen, ?_⟩
      intro fsC hC hsize
      have := hst fsC (hLext.trans hC) hsize [] [] GoMap.empty
      simpa [parseRecordWithRefs] using this

theorem insert_stable_step (L : Lib) (fs : FS) (last now : Int) (schema N : String)
    (data : GoMap) (t : table) (records : List GoMap)
    (hts : StableTable L schema N t fs records)
    (hsup : ∀ f ∈ t.Fields, f.Typ = "ref" → f.Name ≠ "id" → ∃ u, data f.Name = some u) :
    ∃ records1, StableTable L schema N t (addToTable L fs last now schema N data).2.1
      records1 := by
  obtain ⟨hP, ⟨cb, hconf, hun⟩, hw, encs, hdata, hslots⟩ := hts
  obtain ⟨hP1, hconf1, hfail, hok⟩ := insert_files L fs last now schema N data t cb _ hP hconf
    hun hw hdata
  have hslots1 : List.Forall₂
      (SlotStable L schema N t.Fields (addToTable L fs last now schema N data).2.1) encs
      records :=
    hslots.imp (fun _ _ h => h.extend (addToTable_extends L fs last now schema N data))
  by_cases h200 : (addToTable L fs last now schema N data).1.num = 200
  · obtain ⟨enc, -, hd1, -, hst⟩ := hok h200
    obtain ⟨record, hrec⟩ := hst hsup
    refine ⟨records ++ [record], hP1, ⟨cb, hconf1, hun⟩, hw, encs ++ [enc], ?_, ?_⟩
    · rw [hd1]; simp
    · exact List.rel_append hslots1 (List.Forall₂.cons hrec List.Forall₂.nil)
  · exact ⟨records, hP1, ⟨cb, hconf1, hun⟩, hw, encs, hfail h200, hslots1⟩

theorem insertAll_stable (L : Lib) (schema N : String) (t : table)
    (calls : List (Int × GoMap)) : ∀ (fs : FS) (last : Int) (records : List GoMap),
    StableTable L schema N t fs records →
    (∀ c ∈ calls, ∀ f ∈ t.Fields, f.Typ = "ref" → f.Name ≠ "id" →
      ∃ u, c.2 f.Name = some u) →
    ∃ records1, StableTable L schema N t (insertAll L schema N fs last calls).fs records1 := by
  induction calls with
  | nil => intro fs last records h _; exact ⟨records, h⟩
  | cons c rest ih =>
    intro fs last records h hsup
    obtain ⟨now, data⟩ := c
    obtain ⟨records1, h1⟩ := insert_stable_step L fs last now schema N data t records h
      (hsup (now, data) (List.mem_cons_self _ _))
    exact ih _ (addToTable L fs last now schema N data).2.2 records1 h1
      (fun c hc => hsup c (List.mem_cons_of_mem _ hc))

theorem insert_frame (L : Lib) (fs : FS) (last now : Int) (schema N : String)
    (data : GoMap) (t : table) (records : List GoMap)
    (hts : StableTable L schema N t fs records)
    (hS : 0 < calculateRecordSize t.Fields)
    (h200 : (addToTable L fs last now schema N data).1.num = 200)
    (hsize : ∀ f ∈ t.Fields, f.Typ = "ref" →
      (addToTable L fs last now schema N data).2.1.size
        (refFilePath (mainPath ++ "/" ++ schema) N f.Name) < 2 ^ 63) :
    readTable L fs schema N = Run.done (⟨200, "Table read successfully"⟩, records) ∧
    ∃ record, readTable L (addToTable L fs last now schema N data).2.1 schema N
      = Run.done (⟨200, "Table read successfully"⟩, records ++ [record]) := by
  have hext := addToTable_extends L fs last now schema N data
  refine ⟨readTable_stable L schema N t fs records hts hS (fun f hf hT =>
    lt_of_le_of_lt (hext.size_le _) (hsize f hf hT)), ?_⟩
  obtain ⟨hP, ⟨cb, hconf, hun⟩, hw, encs, hdata, hslots⟩ := hts
  obtain ⟨hP1, hconf1, -, hok⟩ := insert_files L fs last now schema N data t cb _ hP hconf
    hun hw hdata
  obtain ⟨enc, hlen, hd1, hdec, -⟩ := hok h200
  obtain ⟨record, hrec⟩ := hdec _ (FS.Extends.refl _) hsize
  have hrs : List.Forall₂ (fun e r => e.length = calculateRecordSize t.Fields ∧
      parseRecordWithRefs L (addToTable L fs last now schema N data).2.1 e t.Fields schema N
        = some r) (encs ++ [enc]) (records ++ [record]) :=
    List.rel_append (hslots.imp (fun _ _ h => ⟨h.1, h.2 _ hext hsize⟩))
      (List.Forall₂.cons ⟨hlen, hrec⟩ List.Forall₂.nil)
  refine ⟨record, ?_⟩
  apply readTable_of_loop L _ schema N cb (encs ++ [enc]).flatten t _ hP1 hconf1 hun
    (FS.readFile_eq (by rw [hd1]; simp))
  have := readTable_loop_flatten
    (fun recordBytes => parseRecordWithRefs L (addToTable L fs last now schema N data).2.1
      recordBytes t.Fields schema N)
    (calculateRecordSize t.Fields) hS _ _ hrs [] [] ((encs ++ [enc]).flatten.length + 1)
    (Nat.lt_succ_of_le (flatten_length_ge _ hS _ _ _ hrs))
  simpa using this

theorem createTable_stable (L : Lib) (fs : FS) (createdAt name schema : String)
    (fields : List field)
    (hjson : L.unmarshal (L.marshalIndent ⟨name, createdAt, timePKField :: fields⟩)
      = Except.ok ⟨name, createdAt, timePKField :: fields⟩)
    (hfloat : ∀ f ∈ fields, f.Typ = "float" → f.Length = 8)
    (hcreate : (createTable L fs createdAt name schema fields).1.num = 200) :
    StableTable L schema name ⟨name, createdAt, timePKField :: fields⟩
      (createTable L fs createdAt name schema fields).2 [] := by
  obtain ⟨hP, hconf, hw, -, encs, hdata, hslots⟩ :=
    createTable_tableState L fs createdAt name schema fields hjson hfloat hcreate
  cases hslots
  exact ⟨hP, hconf, hw, [], hdata, List.Forall₂.nil⟩

/-- Inserts do not disturb stored records that were inserted with a value for
every ref field: in a table created by createTable with float width 8, after
any sequence of addToTable calls that each give a value for every ref field,
a further addToTable answered 200 (with any data map) makes readTable return
the list it returned before followed by exactly one new record. -/
theorem stored_records_kept (L : Lib) (fs : FS) (createdAt name schema : String)
    (fields : List field) (last : Int) (calls : List (Int × GoMap)) (now : Int) (data : GoMap)
    (hjson : L.unmarshal (L.marshalIndent ⟨name, createdAt, timePKField :: fields⟩)
      = Except.ok ⟨name, createdAt, timePKField :: fields⟩)
    (hfloat : ∀ f ∈ fields, f.Typ = "float" → f.Length = 8)
    (hcreate : (createTable L fs createdAt name schema fields).1.num = 200)
    (hsup : ∀ c ∈ calls, ∀ f ∈ fields, f.Typ = "ref" → ∃ u, c.2 f.Name = some u)
    (h200 : (addToTable L (insertAll L schema name
      (createTable L fs createdAt name schema fields).2 last calls).fs
      (insertAll L schema name (createTable L fs createdAt name schema fields).2 last
        calls).lastTimestamp now schema name data).1.num = 200)
    (hsize : ∀ f ∈ fields, f.Typ = "ref" →
      (addToTable L (insertAll L schema name
        (createTable L fs createdAt name schema fields).2 last calls).fs
        (insertAll L schema name (createTable L fs createdAt name schema fields).2 last
          calls).lastTimestamp now schema name data).2.1.size
        (refFilePath (mainPath ++ "/" ++ schema) name f.Name) < 2 ^ 63) :
    ∃ (records : List GoMap) (record : GoMap),
      readTable L (insertAll L schema name
          (createTable L fs createdAt name schema fields).2 last calls).fs schema name
        = Run.done (⟨200, "Table read successfully"⟩, records) ∧
      readTable L (addToTable L (insertAll L schema name
          (createTable L fs createdAt name schema fields).2 last calls).fs
          (insertAll L schema name (createTable L fs createdAt name schema fields).2 last
            calls).lastTimestamp now schema name data).2.1 schema name
        = Run.done (⟨200, "Table read successfully"⟩, records ++ [record]) := by
  have h0 := createTable_stable L fs createdAt name schema fields hjson hfloat hcreate
  obtain ⟨records, h1⟩ := insertAll_stable L schema name _ calls _ last [] h0 (by
    intro c hc f hf hT _
    rcases List.mem_cons.1 hf with rfl | hf
    · exact absurd hT (by decide)
    · exact hsup c hc f hf hT)
  have hS : 0 < calculateRecordSize (timePKField :: fields) := by
    rw [calculateRecordSize_cons]
    have : timePKField.Length = 8 := rfl
    omega
  obtain ⟨hbefore, record, hafter⟩ := insert_frame L _ _ now schema name data _ records h1 hS
    h200 (by
      intro f hf hT
      rcases List.mem_cons.1 hf with rfl | hf
      · exact absurd hT (by decide)
      · exact hsize f hf hT)
  exact ⟨records, record, hbefore, hafter⟩

end HartoDB
